import Mathlib

/-!
# transip-domain-catcher: gateway, acquisition engine and scheduler

A shallow embedding of `src/transipClient.js`, `src/domainCatcher.js` and
`runDomainCheck` of `src/index.js`.

* The two singleton objects (`TransIPClient`, `DomainCatcher`) are the mutable
  part of a `World`; every `async` method becomes a function
  `World → Except JsError α × World` (a thrown error keeps the state changes
  made before the throw, as in JavaScript).  `await` is sequential composition.
* Everything outside the program (the remote API, the file system, the clock,
  `process.env`) is an `Env`: each answer is an arbitrary function of the
  history of interactions so far, so quantifying over `Env` covers every
  behaviour of the outside world.
* The `World` carries that history as a trace of `Event`s.  Besides the external
  interactions the trace records the entry to and the result of the two gateway
  operations and every `logEvent` invocation (the audit events).
* Console output (`console.log`, `console.error`) has no effect on control flow
  or state and is left out.
-/

namespace TransipDomainCatcher

/-! ## JavaScript values -/

/-- A watched domain: a domain name string. -/
abbrev Domain := String

/-- JavaScript values as they occur in response bodies and messages. Numbers are
integers here: only "is it zero" is ever observed by the code. -/
inductive JsVal where
  | undefined
  | null
  | bool (b : Bool)
  | num (n : Int)
  | str (s : String)
  | arr (items : List JsVal)
  | obj (fields : List (String × JsVal))

/-- JavaScript truthiness (`ToBoolean`). -/
def JsVal.truthy : JsVal → Bool
  | .undefined => false
  | .null => false
  | .bool b => b
  | .num n => n != 0
  | .str s => s != ""
  | .arr _ => true
  | .obj _ => true

/-- The test `typeof v === 'object'`. -/
def JsVal.typeofObject : JsVal → Bool
  | .null => true
  | .arr _ => true
  | .obj _ => true
  | _ => false

/-- The test `v === 'free'` and the like: strict equality with a string. -/
def JsVal.strictEqStr : JsVal → String → Bool
  | .str s, t => s == t
  | _, _ => false

/-- An HTTP response as axios exposes it. -/
structure HttpResponse where
  status : Nat
  data : JsVal

/-- A thrown error: `error.message` and, for HTTP errors, `error.response`. -/
structure JsError where
  message : String
  response : Option HttpResponse

/-- Property access `v.key` for the keys the code reads (`availability`,
`status`): a `TypeError` on `undefined` and `null`, the field of an object, and
`undefined` on every other value. -/
def JsVal.getProp (v : JsVal) (key : String) : Except JsError JsVal :=
  match v with
  | .undefined =>
    .error { message := "Cannot read properties of undefined (reading " ++ key ++ ")", response := none }
  | .null =>
    .error { message := "Cannot read properties of null (reading " ++ key ++ ")", response := none }
  | .obj fields => .ok ((fields.lookup key).getD .undefined)
  | _ => .ok .undefined

/-! ## Requests, results and the trace -/

/-- The body of `POST /domains`. -/
structure RegistrationPayload where
  domainName : Domain
  registrationPeriod : Nat
  authCode : String
  isTransferLocked : Bool

/-- An HTTP request: method, URL, `Authorization` header and, for POST, the body. -/
inductive Request where
  | get (url : String) (authorization : String)
  | post (url : String) (authorization : String) (body : RegistrationPayload)

/-- The object returned by `checkDomainAvailability`. -/
structure Availability where
  status : String
  action : String

/-- The object returned by `registerDomain`; `data` is absent on failure. -/
structure RegistrationResult where
  success : Bool
  message : JsVal
  data : Option JsVal

/-- One entry of the interaction history. The first six constructors record an
interaction with the outside world together with its answer. `checkCalled`,
`checkReturned`, `registerCalled` and `registerReturned` mark the entry to and the
result of the two gateway operations. `logEvent` is one invocation of the method
`logEvent`, an audit event. `setTimeout d` is `setTimeout(runDomainCheck, d)`, the only
timer the program registers. -/
inductive Event where
  | getenv (name : String) (value : Option String)
  | now (iso : String)
  | http (req : Request) (res : Except JsError HttpResponse)
  | readConfig (path : String) (res : Except JsError (List Domain))
  | mkdir (path : String) (res : Except JsError Unit)
  | appendFile (file : String) (entry : String) (res : Except JsError Unit)
  | checkCalled (domain : Domain)
  | checkReturned (domain : Domain) (availability : Availability)
  | registerCalled (domain : Domain)
  | registerReturned (domain : Domain) (result : RegistrationResult)
  | logEvent (domain : Domain) (status : String) (message : JsVal)
  | setTimeout (delayMs : Int)

/-- The outside world. Every answer may depend on the whole history.
`readConfig` stands for `fs.readFile` of the domain file followed by
`JSON.parse` and the array operations of `loadDomains`: it yields the list when
the file holds a JSON array of domain names and the error thrown otherwise.
`jsonStringify` and `toStr` are the built-ins `JSON.stringify` and the string
conversion of template literals. -/
structure Env where
  getenv : List Event → String → Option String
  now : List Event → String
  http : List Event → Request → Except JsError HttpResponse
  readConfig : List Event → String → Except JsError (List Domain)
  mkdir : List Event → String → Except JsError Unit
  appendFile : List Event → String → String → Except JsError Unit
  jsonStringify : JsVal → String
  toStr : JsVal → String

/-- The fields of the `TransIPClient` singleton. `token` is `none` for `null`
and for `undefined`. -/
structure TransIPClient where
  baseURL : String
  token : Option String

/-- The fields of the `DomainCatcher` singleton. -/
structure DomainCatcher where
  domainConfigPath : String
  logPath : String
  domains : List Domain
  registeredDomains : List Domain

/-- The program state together with the history of its interactions. -/
structure World where
  client : TransIPClient
  catcher : DomainCatcher
  trace : List Event

/-- The result of running an `async` function: what it returned or threw, and
the world it left behind. -/
abbrev Outcome (α : Type) := Except JsError α × World

/-- Append one entry to the history. -/
def World.emit (w : World) (e : Event) : World :=
  { w with trace := w.trace ++ [e] }

/-- `new TransIPClient()`. -/
def TransIPClient.new : TransIPClient :=
  { baseURL := "https://api.transip.nl/v6", token := none }

/-- `new DomainCatcher()`; the two paths are resolved against `dirname`. -/
def DomainCatcher.new (dirname : String) : DomainCatcher :=
  { domainConfigPath := dirname ++ "/../config/domains.json"
    logPath := dirname ++ "/../logs"
    domains := []
    registeredDomains := [] }

/-- The world of a process whose `DomainCatcher` has just been constructed: any
client state, nothing claimed, nothing done yet. -/
def World.fresh (client : TransIPClient) (dirname : String) : World :=
  { client := client, catcher := DomainCatcher.new dirname, trace := [] }

/-- The world at process start: both singletons just constructed. -/
def World.init (dirname : String) : World :=
  World.fresh TransIPClient.new dirname

/-! ## transipClient.js -/

/-- Truthiness of a string that may be absent (`this.token`, `process.env.DOMAINS`). -/
def textTruthy : Option String → Bool
  | some s => s != ""
  | none => false

/-- The header value of the template literal `Bearer $(this.token)`. The token is
read after it was assigned from `process.env`, where an absent value is
`undefined`. -/
def bearer : Option String → String
  | some s => "Bearer " ++ s
  | none => "Bearer undefined"

/-- Issue an HTTP request and record it with its answer. -/
def httpCall (env : Env) (req : Request) (w : World) : Outcome HttpResponse :=
  let res := env.http w.trace req
  (res, w.emit (.http req res))

/-- The method `authenticate` (transipClient.js 30-51). -/
def authenticate (env : Env) (w : World) : Outcome (Option String) :=
  -- this.token = process.env.TRANSIP_ACCESS_TOKEN;
  let value := env.getenv w.trace "TRANSIP_ACCESS_TOKEN"
  let w1 := w.emit (.getenv "TRANSIP_ACCESS_TOKEN" value)
  let w2 : World := { w1 with client := { w1.client with token := value } }
  -- await axios.get(baseURL/api-test, headers)
  match httpCall env (.get (w2.client.baseURL ++ "/api-test") (bearer w2.client.token)) w2 with
  | (.ok _, w3) => (.ok w3.client.token, w3)
  -- catch (error): console.error; throw error
  | (.error error, w3) => (.error error, w3)

/-- The result of `axios.create`: base URL and `Authorization` header. -/
structure AxiosInstance where
  baseURL : String
  authorization : String

/-- The method `getAuthenticatedClient` (transipClient.js 59-71). -/
def getAuthenticatedClient (env : Env) (w : World) : Outcome AxiosInstance :=
  if !textTruthy w.client.token then
    match authenticate env w with
    | (.error error, w1) => (.error error, w1)
    | (.ok _, w1) =>
      (.ok { baseURL := w1.client.baseURL, authorization := bearer w1.client.token }, w1)
  else
    (.ok { baseURL := w.client.baseURL, authorization := bearer w.client.token }, w)

/-- The value `data && data.availability && data.availability.status === 'free'`
as an `if` condition. -/
def nestedStatusIsFree (data : JsVal) : Except JsError Bool :=
  if !data.truthy then .ok false
  else
    match data.getProp "availability" with
    | .error e => .error e
    | .ok availability =>
      if !availability.truthy then .ok false
      else
        match availability.getProp "status" with
        | .error e => .error e
        | .ok status => .ok (status.strictEqStr "free")

/-- The value `data && data.status === 'free'` as an `if` condition. -/
def topStatusIsFree (data : JsVal) : Except JsError Bool :=
  if !data.truthy then .ok false
  else
    match data.getProp "status" with
    | .error e => .error e
    | .ok status => .ok (status.strictEqStr "free")

/-- The literal returned for a free domain. -/
def Availability.free : Availability := { status := "free", action := "register" }

/-- The literal returned otherwise. -/
def Availability.unavailable : Availability := { status := "unavailable", action := "none" }

/-- The inner `try` block of `checkDomainAvailability` (lines 87-109). -/
def interpretAvailability (response : HttpResponse) : Except JsError Availability :=
  match nestedStatusIsFree response.data with
  | .error e => .error e
  | .ok true => .ok Availability.free
  | .ok false =>
    match topStatusIsFree response.data with
    | .error e => .error e
    | .ok true => .ok Availability.free
    | .ok false => .ok Availability.unavailable

/-- The body of `checkDomainAvailability` with its two `try`/`catch` blocks. -/
def checkDomainAvailabilityTry (env : Env) (domainName : Domain) (w : World) :
    Outcome Availability :=
  match getAuthenticatedClient env w with
  -- catch (error)
  | (.error _, w1) => (.ok Availability.unavailable, w1)
  | (.ok client, w1) =>
    match httpCall env (.get (client.baseURL ++ "/domain-availability/" ++ domainName)
        client.authorization) w1 with
    -- catch (availabilityError)
    | (.error _, w2) => (.ok Availability.unavailable, w2)
    | (.ok response, w2) =>
      match interpretAvailability response with
      -- catch (availabilityError)
      | .error _ => (.ok Availability.unavailable, w2)
      | .ok availability => (.ok availability, w2)

/-- The method `checkDomainAvailability` (transipClient.js 82-116); the call and
its result are recorded in the trace. -/
def checkDomainAvailability (env : Env) (domainName : Domain) (w : World) :
    Outcome Availability :=
  match checkDomainAvailabilityTry env domainName (w.emit (.checkCalled domainName)) with
  | (.ok availability, w1) =>
    (.ok availability, w1.emit (.checkReturned domainName availability))
  | (.error e, w1) => (.error e, w1)

/-- The payload built by `registerDomain`. -/
def registrationPayload (domainName : Domain) : RegistrationPayload :=
  { domainName := domainName, registrationPeriod := 1, authCode := "", isTransferLocked := false }

/-- The `try` block of `registerDomain` (lines 131-156). -/
def registerDomainTry (env : Env) (domainName : Domain) (w : World) :
    Outcome RegistrationResult :=
  match checkDomainAvailability env domainName w with
  | (.error e, w1) => (.error e, w1)
  | (.ok availability, w1) =>
    if availability.status != "free" then
      (.ok { success := false
             message := .str ("Domain " ++ domainName ++ " is not available for registration")
             data := none }, w1)
    else
      match getAuthenticatedClient env w1 with
      | (.error e, w2) => (.error e, w2)
      | (.ok client, w2) =>
        match httpCall env (.post (client.baseURL ++ "/domains") client.authorization
            (registrationPayload domainName)) w2 with
        | (.error e, w3) => (.error e, w3)
        | (.ok response, w3) =>
          (.ok { success := true
                 message := .str ("Domain " ++ domainName ++ " registered successfully!")
                 data := some response.data }, w3)

/-- The `catch` block of `registerDomain` (lines 157-172). -/
def registerDomainCatch (env : Env) (error : JsError) : RegistrationResult :=
  let errorMessage : JsVal :=
    match error.response with
    | some response =>
      if response.data.truthy then
        if response.data.typeofObject then .str (env.jsonStringify response.data)
        else response.data
      else .str error.message
    | none => .str error.message
  { success := false, message := errorMessage, data := none }

/-- The method `registerDomain` (transipClient.js 130-173); the call and its
result are recorded in the trace. -/
def registerDomain (env : Env) (domainName : Domain) (w : World) :
    Outcome RegistrationResult :=
  match registerDomainTry env domainName (w.emit (.registerCalled domainName)) with
  | (.ok result, w1) => (.ok result, w1.emit (.registerReturned domainName result))
  | (.error error, w1) =>
    (.ok (registerDomainCatch env error),
      w1.emit (.registerReturned domainName (registerDomainCatch env error)))

/-! ## domainCatcher.js -/

/-- Split at every comma (`split(',')`). -/
def splitComma : List Char → List (List Char)
  | [] => [[]]
  | c :: cs =>
    match splitComma cs with
    | [] => [[]]
    | piece :: pieces => if c = ',' then [] :: piece :: pieces else (c :: piece) :: pieces

/-- The characters removed by `String.prototype.trim`: white space and line
terminators. -/
def jsWhitespace (c : Char) : Bool :=
  c.toNat ∈ [0x09, 0x0A, 0x0B, 0x0C, 0x0D, 0x20, 0xA0, 0x1680, 0x2028, 0x2029, 0x202F,
    0x205F, 0x3000, 0xFEFF] || (0x2000 ≤ c.toNat && c.toNat ≤ 0x200A)

/-- The method `trim` on the characters of a string. -/
def jsTrim (cs : List Char) : List Char :=
  ((cs.dropWhile jsWhitespace).reverse.dropWhile jsWhitespace).reverse

/-- The expression `envDomains.split(',').map(domain => domain.trim()).filter(Boolean)`. -/
def parseEnvDomains (envDomains : String) : List Domain :=
  (((splitComma envDomains.data).map jsTrim).filter (fun cs => !cs.isEmpty)).map String.mk

/-- The method `loadDomains` (domainCatcher.js 29-61). -/
def loadDomains (env : Env) (w : World) : Outcome Unit :=
  let envDomains := env.getenv w.trace "DOMAINS"
  let w1 := w.emit (.getenv "DOMAINS" envDomains)
  if textTruthy envDomains then
    (.ok (), { w1 with catcher := { w1.catcher with
      domains := parseEnvDomains (envDomains.getD "") } })
  else
    let res := env.readConfig w1.trace w1.catcher.domainConfigPath
    let w2 := w1.emit (.readConfig w1.catcher.domainConfigPath res)
    match res with
    | .ok list => (.ok (), { w2 with catcher := { w2.catcher with domains := list } })
    | .error error =>
      (.error { message := "Could not load domain list: " ++ error.message, response := none }, w2)

/-- The date part of an ISO timestamp: `iso.split('T')[0]`. -/
def isoDate (iso : String) : String :=
  String.mk (iso.data.takeWhile (fun c => c != 'T'))

/-- The method `logEvent` (domainCatcher.js 72-84). The invocation itself is the
audit event; the write to the daily file may fail and the failure is swallowed. -/
def logEvent (env : Env) (domain : Domain) (status : String) (message : JsVal) (w : World) :
    Outcome Unit :=
  let w0 := w.emit (.logEvent domain status message)
  -- const timestamp = new Date().toISOString();
  let timestamp := env.now w0.trace
  let w1 := w0.emit (.now timestamp)
  let logEntry := timestamp ++ " - Domain: " ++ domain ++ " - Status: " ++ status ++ " - "
    ++ env.toStr message ++ "\n"
  -- await fs.mkdir(this.logPath, recursive).catch(err => {});
  let w2 := w1.emit (.mkdir w1.catcher.logPath (env.mkdir w1.trace w1.catcher.logPath))
  let day := env.now w2.trace
  let w3 := w2.emit (.now day)
  let logFile := w3.catcher.logPath ++ "/domain-catcher-" ++ isoDate day ++ ".log"
  -- await fs.appendFile(logFile, logEntry);
  let res := env.appendFile w3.trace logFile logEntry
  let w4 := w3.emit (.appendFile logFile logEntry res)
  match res with
  | .ok _ => (.ok (), w4)
  -- catch (error): console.error
  | .error _ => (.ok (), w4)

/-- The body of the `for` loop of `checkAndRegisterDomains` (lines 103-127). -/
def processDomain (env : Env) (domain : Domain) (w : World) : Outcome Unit :=
  if w.catcher.registeredDomains.contains domain then
    -- continue
    (.ok (), w)
  else
    match checkDomainAvailability env domain w with
    | (.error e, w1) => (.error e, w1)
    | (.ok availability, w1) =>
      if availability.status == "free" then
        match logEvent env domain "FREE" (.str "Domain is available for registration") w1 with
        | (.error e, w2) => (.error e, w2)
        | (.ok _, w2) =>
          match registerDomain env domain w2 with
          | (.error e, w3) => (.error e, w3)
          | (.ok result, w3) =>
            if result.success then
              match logEvent env domain "REGISTERED" (.str "Domain registration successful") w3 with
              | (.error e, w4) => (.error e, w4)
              | (.ok _, w4) =>
                -- this.registeredDomains.push(domain);
                (.ok (), { w4 with catcher := { w4.catcher with
                  registeredDomains := w4.catcher.registeredDomains ++ [domain] } })
            else
              logEvent env domain "REGISTRATION_FAILED" result.message w3
      else
        logEvent env domain "UNAVAILABLE" (.str "Domain not available for registration") w1

/-- The loop `for (const domain of this.domains)`. -/
def forEachDomain (env : Env) : List Domain → World → Outcome Unit
  | [], w => (.ok (), w)
  | domain :: rest, w =>
    match processDomain env domain w with
    | (.error e, w1) => (.error e, w1)
    | (.ok _, w1) => forEachDomain env rest w1

/-- The method `checkAndRegisterDomains` (domainCatcher.js 99-129). -/
def checkAndRegisterDomains (env : Env) (w : World) : Outcome Unit :=
  match loadDomains env w with
  | (.error e, w1) => (.error e, w1)
  | (.ok _, w1) => forEachDomain env w1.catcher.domains w1

/-! ## index.js -/

/-- The function `runDomainCheck` (index.js 52-63); `checkIntervalSeconds` is the
module constant read from the environment at start-up. -/
def runDomainCheck (env : Env) (checkIntervalSeconds : Int) (w : World) : Outcome Unit :=
  -- const timestamp = new Date().toISOString()...
  let w0 := w.emit (.now (env.now w.trace))
  let w1 :=
    match checkAndRegisterDomains env w0 with
    | (.ok _, w1) => w1
    -- catch (error): console.error
    | (.error _, w1) => w1
  -- setTimeout(runDomainCheck, checkIntervalSeconds * 1000);
  (.ok (), w1.emit (.setTimeout (checkIntervalSeconds * 1000)))

/-- Run `n` consecutive cycles on the same singletons, as the scheduler does:
an error thrown by a cycle is dropped and the state it left is kept. -/
def cycles (env : Env) : Nat → World → World
  | 0, w => w
  | n + 1, w => cycles env n (checkAndRegisterDomains env w).2

/-! ## Projections of the trace, the segment grammar of a cycle, and scenarios -/

/-- Interactions with the outside world other than `POST /domains`. -/
def Event.quiet : Event → Bool
  | .getenv _ _ => true
  | .now _ => true
  | .http (.get _ _) _ => true
  | .readConfig _ _ => true
  | .mkdir _ _ => true
  | .appendFile _ _ _ => true
  | _ => false

/-- The trace without its quiet entries. -/
def view (t : List Event) : List Event := t.filter (fun e => !e.quiet)

/-- The field `key` of a response body; `undefined` when the body is not an
object or has no such field. -/
def JsVal.field (v : JsVal) (key : String) : JsVal :=
  match v with
  | .obj fields => (fields.lookup key).getD .undefined
  | _ => .undefined

/-- The body has `availability.status` equal to `'free'` or top-level `status`
equal to `'free'`. -/
def reportsFree (data : JsVal) : Bool :=
  ((data.field "availability").field "status").strictEqStr "free"
    || (data.field "status").strictEqStr "free"

/-- The result `registerDomain` returns without a POST when the re-check is not free. -/
def notAvailableResult (d : Domain) : RegistrationResult :=
  { success := false
    message := .str ("Domain " ++ d ++ " is not available for registration")
    data := none }

/-- The result `registerDomain` returns when the POST was answered with `response`. -/
def registeredResult (d : Domain) (response : HttpResponse) : RegistrationResult :=
  { success := true
    message := .str ("Domain " ++ d ++ " registered successfully!")
    data := some response.data }

/-- What `registerDomain` does after its re-check returned `a`: the events `δ` it adds
and the result `r` it returns. -/
def AfterRecheck (env : Env) (d : Domain) (a : Availability) (δ : List Event)
    (r : RegistrationResult) : Prop :=
  (a.status ≠ "free" ∧ δ = [.registerReturned d r] ∧ r = notAvailableResult d) ∨
  (a.status = "free" ∧ ∃ δq e, view δq = [] ∧ δ = δq ++ [.registerReturned d r] ∧
      r = registerDomainCatch env e) ∨
  (a.status = "free" ∧ ∃ δq url auth res, view δq = [] ∧
      δ = δq ++ [.http (.post url auth (registrationPayload d)) res, .registerReturned d r] ∧
      r = match res with
          | .ok response => registeredResult d response
          | .error e => registerDomainCatch env e)

/-- A `POST /domains` request in the trace. -/
def Event.isPost : Event → Bool
  | .http (.post _ _ _) _ => true
  | _ => false

/-- The message of the `FREE` audit event. -/
def msgFree : JsVal := .str "Domain is available for registration"

/-- The message of the `REGISTERED` audit event. -/
def msgRegistered : JsVal := .str "Domain registration successful"

/-- The message of the `UNAVAILABLE` audit event. -/
def msgUnavailable : JsVal := .str "Domain not available for registration"

/-- An audit event: the arguments of one `logEvent` invocation. -/
structure AuditEvent where
  domain : Domain
  status : String
  message : JsVal

/-- The audit event an entry of the trace stands for, if any. -/
def Event.audit? : Event → Option AuditEvent
  | .logEvent d s m => some { domain := d, status := s, message := m }
  | _ => none

/-- The sequence of audit events of a trace. -/
def auditEvents (t : List Event) : List AuditEvent := t.filterMap Event.audit?

/-- The four ways one loop iteration can handle a domain. -/
inductive Handling where
  | skipped
  | unavailable
  | registered
  | failed (message : JsVal)

/-- The block of audit events prescribed for each way of handling a domain. -/
def Handling.audits (d : Domain) : Handling → List AuditEvent
  | .skipped => []
  | .unavailable => [{ domain := d, status := "UNAVAILABLE", message := msgUnavailable }]
  | .registered =>
    [{ domain := d, status := "FREE", message := msgFree },
     { domain := d, status := "REGISTERED", message := msgRegistered }]
  | .failed message =>
    [{ domain := d, status := "FREE", message := msgFree },
     { domain := d, status := "REGISTRATION_FAILED", message := message }]

/-- The events one loop iteration for `d` may add, by what is observable of them
(`view`), the way `d` was handled and the claimed set the iteration leaves, given the
claimed set `reg` it found: nothing when `d` is claimed already; otherwise the probe
with its result `a` and then, by `a` and the registration result `r`, one of the three
continuations. -/
inductive Processed (d : Domain) (reg : List Domain) :
    Handling → List Event → List Domain → Prop
  | skipped : d ∈ reg → Processed d reg .skipped [] reg
  | unavailable (δ : List Event) (a : Availability) :
      d ∉ reg → a.status ≠ "free" →
      view δ = [.checkCalled d, .checkReturned d a, .logEvent d "UNAVAILABLE" msgUnavailable] →
      Processed d reg .unavailable δ reg
  | registered (δ : List Event) (a a2 : Availability) (ps : List Event)
      (r : RegistrationResult) :
      d ∉ reg → a.status = "free" → r.success = true → (∀ e ∈ ps, e.isPost = true) →
      view δ = [.checkCalled d, .checkReturned d a, .logEvent d "FREE" msgFree,
          .registerCalled d, .checkCalled d, .checkReturned d a2] ++ ps ++
        [.registerReturned d r, .logEvent d "REGISTERED" msgRegistered] →
      Processed d reg .registered δ (reg ++ [d])
  | failed (δ : List Event) (a a2 : Availability) (ps : List Event)
      (r : RegistrationResult) :
      d ∉ reg → a.status = "free" → r.success = false → (∀ e ∈ ps, e.isPost = true) →
      view δ = [.checkCalled d, .checkReturned d a, .logEvent d "FREE" msgFree,
          .registerCalled d, .checkCalled d, .checkReturned d a2] ++ ps ++
        [.registerReturned d r, .logEvent d "REGISTRATION_FAILED" r.message] →
      Processed d reg (.failed r.message) δ reg

/-- The events of one pass over a list of domains: one segment per domain, in list
order, each found with the claimed set the previous one left. -/
inductive CycleTrace :
    List Domain → List Domain → List Handling → List Event → List Domain → Prop
  | nil (reg : List Domain) : CycleTrace [] reg [] [] reg
  | cons {d : Domain} {ds : List Domain} {reg reg1 reg2 : List Domain} {h : Handling}
      {hs : List Handling} {b t : List Event} :
      Processed d reg h b reg1 → CycleTrace ds reg1 hs t reg2 →
      CycleTrace (d :: ds) reg (h :: hs) (b ++ t) reg2

/-- An action of the engine on domain `d`: a call of `checkDomainAvailability` or of
`registerDomain` for `d`, or an audit event for `d`. -/
def Event.touches (d : Domain) : Event → Bool
  | .checkCalled d' => d' == d
  | .registerCalled d' => d' == d
  | .logEvent d' _ _ => d' == d
  | _ => false

/-- The return of a `registerDomain` call. -/
def Event.isRegisterReturned : Event → Bool
  | .registerReturned _ _ => true
  | _ => false

/-- The observable traces and claimed sets reachable from a new `DomainCatcher` by
loop iterations. -/
inductive Reach : List Event → List Domain → Prop
  | init : Reach [] []
  | step {v : List Event} {reg reg1 : List Domain} {d : Domain} {h : Handling}
      {δ : List Event} :
      Reach v reg → Processed d reg h δ reg1 → Reach (v ++ view δ) reg1

/-- The world at the start of a process installed in `/app/src`. -/
def startWorld : World := World.init "/app/src"

/-- The response of an accepted registration. -/
def created : HttpResponse := { status := 201, data := .obj [] }

/-- A response body reporting the domain as free in the nested shape. -/
def freeBody : JsVal := .obj [("availability", .obj [("status", .str "free")])]

/-- An environment for scenarios: the watched list comes from `DOMAINS`, a token is
configured, every GET is answered with a free verdict, `POST /domains` is answered
by `post` from the history, and the file system works. -/
def scenarioEnv (domains : String) (post : List Event → Except JsError HttpResponse) : Env where
  getenv := fun _ name =>
    if name = "DOMAINS" then some domains
    else if name = "TRANSIP_ACCESS_TOKEN" then some "tok" else none
  now := fun _ => "2024-05-06T07:08:09.000Z"
  http := fun t req =>
    match req with
    | .get _ _ => .ok { status := 200, data := freeBody }
    | .post _ _ _ => post t
  readConfig := fun _ _ => .ok []
  mkdir := fun _ _ => .ok ()
  appendFile := fun _ _ _ => .ok ()
  jsonStringify := fun _ => "[object]"
  toStr := fun _ => "[message]"

/-- Scenario 1 of the specification: `free1.test` is free and its registration succeeds. -/
def envScenario1 : Env :=
  scenarioEnv "free1.test" (fun _ => .ok created)

/-- The error of a request answered with status 400 and the JSON body `false`. -/
def badRequest : JsError :=
  { message := "Request failed with status code 400"
    response := some { status := 400, data := .bool false } }

/-- The watched list names `a.test` twice; the first `POST /domains` is rejected and
every later one accepted. -/
def envDuplicate : Env :=
  scenarioEnv "a.test,a.test" (fun t =>
    if t.any Event.isPost then .ok created else .error badRequest)

/-- Every registration of `a.test` is rejected with the JSON body `false`. -/
def envRejected : Env :=
  scenarioEnv "a.test" (fun _ => .error badRequest)

/-- The error of a request that got no response. -/
def networkError : JsError := { message := "Network Error", response := none }

/-- Nothing works: every HTTP request and every file operation fails. The watched list
is `a.test, b.test` and a token is configured. -/
def envHostile : Env where
  getenv := fun _ name =>
    if name = "DOMAINS" then some "a.test, b.test"
    else if name = "TRANSIP_ACCESS_TOKEN" then some "expired-token" else none
  now := fun _ => "2024-05-06T07:08:09.000Z"
  http := fun _ _ => .error networkError
  readConfig := fun _ _ => .error { message := "ENOENT", response := none }
  mkdir := fun _ _ => .error { message := "EACCES", response := none }
  appendFile := fun _ _ _ => .error { message := "EACCES", response := none }
  jsonStringify := fun _ => "[object]"
  toStr := fun _ => "[message]"

/-- A timer registration in the trace. -/
def Event.isSetTimeout : Event → Bool
  | .setTimeout _ => true
  | _ => false

/-- The answer to the first `POST /domains` among the given events, if there is one. -/
def postAnswer? : List Event → Option (Except JsError HttpResponse)
  | [] => none
  | .http (.post _ _ _) res :: _ => some res
  | _ :: rest => postAnswer? rest

/-- The failure detail of a rejected registration: the response body when the error
carries one that is truthy, JSON-serialised when it is an object or array and as it is
otherwise; the raw error text when there is no response or its body is absent or falsy. -/
def failureDetail (env : Env) (error : JsError) : JsVal :=
  match error.response with
  | none => .str error.message
  | some response =>
    match response.data with
    | .undefined => .str error.message
    | .null => .str error.message
    | .bool b => if b then .bool true else .str error.message
    | .num n => if n = 0 then .str error.message else .num n
    | .str s => if s = "" then .str error.message else .str s
    | .arr items => .str (env.jsonStringify (.arr items))
    | .obj fields => .str (env.jsonStringify (.obj fields))

/-- Add a domain to the claimed set. -/
def World.claim (w : World) (d : Domain) : World :=
  { w with catcher := { w.catcher with
      registeredDomains := w.catcher.registeredDomains ++ [d] } }

/-- One loop iteration as the per-cycle algorithm of the specification prescribes it,
in terms of the gateway operations and the audit sink: the way the domain is handled,
decided by what `checkDomainAvailability` and `registerDomain` return, and the world
left behind. The gateway reports failures as data; the two branches for a thrown error
are never taken. -/
def specIteration (env : Env) (d : Domain) (w : World) : Handling × World :=
  if d ∈ w.catcher.registeredDomains then (.skipped, w)
  else
    match checkDomainAvailability env d w with
    | (.error _, w1) => (.unavailable, w1)
    | (.ok verdict, w1) =>
      if verdict.status = "free" then
        match registerDomain env d (logEvent env d "FREE" msgFree w1).2 with
        | (.error _, w3) => (.failed .undefined, w3)
        | (.ok outcome, w3) =>
          if outcome.success = true then
            (.registered, (logEvent env d "REGISTERED" msgRegistered w3).2.claim d)
          else
            (.failed outcome.message,
              (logEvent env d "REGISTRATION_FAILED" outcome.message w3).2)
      else (.unavailable, (logEvent env d "UNAVAILABLE" msgUnavailable w1).2)

/-- The ways the domains of a list are handled, one after the other, by the
specification's algorithm. -/
def cycleHandlings (env : Env) : List Domain → World → List Handling
  | [], _ => []
  | d :: ds, w => (specIteration env d w).1 :: cycleHandlings env ds (specIteration env d w).2

/-- The world the specification's algorithm leaves after a list of domains. -/
def specLoop (env : Env) : List Domain → World → World
  | [], w => w
  | d :: ds, w => specLoop env ds (specIteration env d w).2

/-! ## Lemmas -/

@[simp]
theorem view_append (s t : List Event) : view (s ++ t) = view s ++ view t := by
  simp [view]

@[simp]
theorem view_nil : view [] = [] := rfl

theorem view_cons (e : Event) (t : List Event) :
    view (e :: t) = if e.quiet then view t else e :: view t := by
  cases h : e.quiet <;> simp [view, h]

theorem authenticate_trace (env : Env) (w : World) :
    ∃ δ, (authenticate env w).2.trace = w.trace ++ δ ∧ view δ = [] ∧
      (authenticate env w).2.catcher = w.catcher := by
  unfold authenticate httpCall
  simp only [World.emit]
  split <;> rename_i h <;> simp only [Prod.mk.injEq] at h <;> obtain ⟨_, rfl⟩ := h <;>
    exact ⟨_, by simp only [List.append_assoc]; rfl, by simp [view_cons, view_nil, Event.quiet], rfl⟩

theorem getAuthenticatedClient_trace (env : Env) (w : World) :
    ∃ δ, (getAuthenticatedClient env w).2.trace = w.trace ++ δ ∧ view δ = [] ∧
      (getAuthenticatedClient env w).2.catcher = w.catcher := by
  obtain ⟨δ, h1, h2, h3⟩ := authenticate_trace env w
  unfold getAuthenticatedClient
  split
  · split <;> rename_i h <;> rw [h] at h1 h3 <;> exact ⟨δ, h1, h2, h3⟩
  · exact ⟨[], by simp, rfl, rfl⟩

theorem getProp_of_truthy (v : JsVal) (key : String) (h : v.truthy = true) :
    v.getProp key = .ok (v.field key) := by
  cases v <;> simp_all [JsVal.truthy, JsVal.getProp, JsVal.field]

theorem field_of_not_truthy (v : JsVal) (key : String) (h : v.truthy = false) :
    v.field key = .undefined := by
  cases v <;> simp_all [JsVal.truthy, JsVal.field]

theorem nestedStatusIsFree_eq (data : JsVal) :
    nestedStatusIsFree data
      = .ok (((data.field "availability").field "status").strictEqStr "free") := by
  unfold nestedStatusIsFree
  cases h : data.truthy
  · simp only [field_of_not_truthy data _ h]
    rfl
  · simp only [Bool.not_true, Bool.false_eq_true, if_false, getProp_of_truthy data _ h]
    cases h' : (data.field "availability").truthy
    · simp [field_of_not_truthy _ _ h', JsVal.strictEqStr]
    · simp [getProp_of_truthy _ _ h']

theorem topStatusIsFree_eq (data : JsVal) :
    topStatusIsFree data = .ok ((data.field "status").strictEqStr "free") := by
  unfold topStatusIsFree
  cases h : data.truthy
  · simp [field_of_not_truthy data _ h, JsVal.strictEqStr]
  · simp [getProp_of_truthy data _ h]

theorem interpretAvailability_eq (response : HttpResponse) :
    interpretAvailability response
      = .ok (if reportsFree response.data then Availability.free else Availability.unavailable) := by
  unfold interpretAvailability reportsFree
  rw [nestedStatusIsFree_eq, topStatusIsFree_eq]
  cases ((response.data.field "availability").field "status").strictEqStr "free" <;>
    cases (response.data.field "status").strictEqStr "free" <;> rfl

theorem checkDomainAvailabilityTry_trace (env : Env) (d : Domain) (w : World) :
    ∃ a w1 δ, checkDomainAvailabilityTry env d w = (.ok a, w1) ∧ w1.trace = w.trace ++ δ ∧
      view δ = [] ∧ w1.catcher = w.catcher ∧
      (a = Availability.free ∨ a = Availability.unavailable) := by
  obtain ⟨δ, h1, h2, h3⟩ := getAuthenticatedClient_trace env w
  unfold checkDomainAvailabilityTry
  split
  · rename_i e w1 h
    rw [h] at h1 h3
    exact ⟨_, _, δ, rfl, h1, h2, h3, Or.inr rfl⟩
  · rename_i client w1 h
    rw [h] at h1 h3
    simp only at h1 h3
    unfold httpCall
    split
    · rename_i e w2 h'
      simp only [Prod.mk.injEq] at h'
      obtain ⟨_, rfl⟩ := h'
      refine ⟨_, _, δ ++ [_], rfl, by rw [World.emit, h1, List.append_assoc], ?_, h3, Or.inr rfl⟩
      simp [view_append, h2, view_cons, Event.quiet]
    · rename_i response w2 h'
      simp only [Prod.mk.injEq] at h'
      obtain ⟨_, rfl⟩ := h'
      rw [interpretAvailability_eq]
      refine ⟨_, _, δ ++ [_], rfl, by rw [World.emit, h1, List.append_assoc], ?_, h3, ?_⟩
      · simp [view_append, h2, view_cons, Event.quiet]
      · cases reportsFree response.data <;> simp

theorem checkDomainAvailability_trace (env : Env) (d : Domain) (w : World) :
    ∃ a w1 δ, checkDomainAvailability env d w = (.ok a, w1) ∧ w1.trace = w.trace ++ δ ∧
      view δ = [.checkCalled d, .checkReturned d a] ∧ w1.catcher = w.catcher ∧
      (a = Availability.free ∨ a = Availability.unavailable) := by
  obtain ⟨a, w1, δ, h, h1, h2, h3, h4⟩ :=
    checkDomainAvailabilityTry_trace env d (w.emit (.checkCalled d))
  unfold checkDomainAvailability
  rw [h]
  refine ⟨a, _, .checkCalled d :: δ ++ [.checkReturned d a], rfl, ?_, ?_, h3, h4⟩
  · simp [World.emit, h1]
  · simp [view_cons, view_append, h2, Event.quiet]

theorem registerDomain_trace (env : Env) (d : Domain) (w : World) :
    ∃ a w1 r w2 δ,
      checkDomainAvailability env d (w.emit (.registerCalled d)) = (.ok a, w1) ∧
      registerDomain env d w = (.ok r, w2) ∧ w2.trace = w1.trace ++ δ ∧
      w2.catcher = w.catcher ∧ AfterRecheck env d a δ r := by
  obtain ⟨a, w1, δ1, hc, ht1, -, hk1, -⟩ :=
    checkDomainAvailability_trace env d (w.emit (.registerCalled d))
  refine ⟨a, w1, ?_⟩
  unfold registerDomain registerDomainTry
  rw [hc]
  simp only
  by_cases hfree : a.status = "free"
  · simp only [hfree, bne_self_eq_false, Bool.false_eq_true, if_false]
    obtain ⟨δ2, ht2, hv2, hk2⟩ := getAuthenticatedClient_trace env w1
    rcases hg : getAuthenticatedClient env w1 with ⟨_ | client, w2⟩
    · rename_i e
      rw [hg] at ht2 hk2
      simp only at ht2 hk2
      refine ⟨registerDomainCatch env e, _, δ2 ++ [.registerReturned d (registerDomainCatch env e)],
        trivial, rfl, by rw [World.emit, ht2, List.append_assoc],
        by rw [World.emit]; exact hk2.trans hk1, Or.inr (Or.inl ⟨hfree, δ2, e, hv2, rfl, rfl⟩)⟩
    · rw [hg] at ht2 hk2
      simp only at ht2 hk2
      simp only [httpCall]
      rcases hp : env.http w2.trace (.post (client.baseURL ++ "/domains") client.authorization
        (registrationPayload d)) with e | response
      · refine ⟨registerDomainCatch env e, _,
          δ2 ++ [.http (.post (client.baseURL ++ "/domains") client.authorization
            (registrationPayload d)) (.error e), .registerReturned d (registerDomainCatch env e)],
          trivial, rfl, ?_, by simp only [World.emit]; exact hk2.trans hk1,
          Or.inr (Or.inr ⟨hfree, δ2, _, _, _, hv2, rfl, rfl⟩)⟩
        simp only [World.emit, ht2, List.append_assoc, List.singleton_append]
      · refine ⟨registeredResult d response, _,
          δ2 ++ [.http (.post (client.baseURL ++ "/domains") client.authorization
            (registrationPayload d)) (.ok response), .registerReturned d (registeredResult d response)],
          trivial, rfl, ?_, by simp only [World.emit]; exact hk2.trans hk1,
          Or.inr (Or.inr ⟨hfree, δ2, _, _, _, hv2, rfl, rfl⟩)⟩
        simp only [World.emit, ht2, List.append_assoc, List.singleton_append]
        rfl
  · have hb : (a.status != "free") = true := by simpa using hfree
    simp only [hb, if_true]
    exact ⟨notAvailableResult d, _, [.registerReturned d (notAvailableResult d)], trivial, rfl, rfl, by rw [World.emit]; exact hk1, Or.inl ⟨hfree, rfl, rfl⟩⟩

theorem logEvent_trace (env : Env) (d : Domain) (s : String) (m : JsVal) (w : World) :
    ∃ w1 δ, logEvent env d s m w = (.ok (), w1) ∧ w1.trace = w.trace ++ δ ∧
      view δ = [.logEvent d s m] ∧ w1.catcher = w.catcher := by
  unfold logEvent
  simp only [World.emit]
  split <;>
    exact ⟨_, _, rfl, by simp only [List.append_assoc]; rfl,
      by simp [view_cons, Event.quiet], rfl⟩

theorem AfterRecheck.view_eq {env : Env} {d : Domain} {a : Availability} {δ : List Event}
    {r : RegistrationResult} (h : AfterRecheck env d a δ r) :
    ∃ ps, view δ = ps ++ [.registerReturned d r] ∧ ∀ e ∈ ps, e.isPost = true := by
  rcases h with ⟨-, rfl, -⟩ | ⟨-, δq, e, hq, rfl, -⟩ | ⟨-, δq, url, auth, res, hq, rfl, -⟩
  · exact ⟨[], by simp [view_cons, Event.quiet], by simp⟩
  · exact ⟨[], by simp [view_cons, Event.quiet, hq], by simp⟩
  · exact ⟨[.http (.post url auth (registrationPayload d)) res],
      by simp [view_cons, Event.quiet, hq], by simp [Event.isPost]⟩

theorem registerDomain_view (env : Env) (d : Domain) (w : World) :
    ∃ r w1 δ a2 ps, registerDomain env d w = (.ok r, w1) ∧ w1.trace = w.trace ++ δ ∧
      w1.catcher = w.catcher ∧ (∀ e ∈ ps, e.isPost = true) ∧
      view δ = [.registerCalled d, .checkCalled d, .checkReturned d a2] ++ ps ++
        [.registerReturned d r] := by
  obtain ⟨a, w1, r, w2, δ, hc, hr, ht, hk, hafter⟩ := registerDomain_trace env d w
  obtain ⟨a', w1', δc, hc', htc, hvc, -, -⟩ :=
    checkDomainAvailability_trace env d (w.emit (.registerCalled d))
  rw [hc] at hc'
  simp only [Prod.mk.injEq, Except.ok.injEq] at hc'
  obtain ⟨rfl, rfl⟩ := hc'
  obtain ⟨ps, hps, hpost⟩ := hafter.view_eq
  refine ⟨r, w2, .registerCalled d :: δc ++ δ, a, ps, hr, ?_, hk, hpost, ?_⟩
  · rw [ht, htc]
    simp [World.emit]
  · simp [view_cons, Event.quiet, hvc, hps]

theorem processDomain_trace (env : Env) (d : Domain) (w : World) :
    ∃ w1 δ h, processDomain env d w = (.ok (), w1) ∧ w1.trace = w.trace ++ δ ∧
      w1.catcher = { w.catcher with registeredDomains := w1.catcher.registeredDomains } ∧
      Processed d w.catcher.registeredDomains h δ w1.catcher.registeredDomains ∧
      specIteration env d w = (h, w1) := by
  unfold processDomain
  by_cases hmem : d ∈ w.catcher.registeredDomains
  · have hc1 : w.catcher.registeredDomains.contains d = true := by simpa using hmem
    simp only [hc1, if_true]
    exact ⟨w, [], .skipped, rfl, by simp, rfl, .skipped hmem, by simp [specIteration, hmem]⟩
  · have hc0 : w.catcher.registeredDomains.contains d = false := by
      simpa using hmem
    simp only [hc0, Bool.false_eq_true, if_false]
    obtain ⟨a, w1, δ1, hc, ht1, hv1, hk1, -⟩ := checkDomainAvailability_trace env d w
    have hspec0 : specIteration env d w
        = if a.status = "free" then
            match registerDomain env d (logEvent env d "FREE" msgFree w1).2 with
            | (.error _, w3) => (.failed .undefined, w3)
            | (.ok outcome, w3) =>
              if outcome.success = true then
                (.registered, (logEvent env d "REGISTERED" msgRegistered w3).2.claim d)
              else
                (.failed outcome.message,
                  (logEvent env d "REGISTRATION_FAILED" outcome.message w3).2)
          else (.unavailable, (logEvent env d "UNAVAILABLE" msgUnavailable w1).2) := by
      simp only [specIteration, hmem, if_false, hc]
    rw [hc]
    simp only
    by_cases hfree : a.status = "free"
    · simp only [hfree, beq_self_eq_true, if_true]
      obtain ⟨w2, δ2, hl, ht2, hv2, hk2⟩ := logEvent_trace env d "FREE" msgFree w1
      obtain ⟨r, w3, δ3, a2, ps, hr, ht3, hk3, hps, hv3⟩ := registerDomain_view env d w2
      simp only [hfree, if_true, hl, hr] at hspec0
      rw [msgFree] at hl
      rw [hl]
      simp only
      rw [hr]
      simp only
      cases hs : r.success
      · simp only [Bool.false_eq_true, if_false]
        obtain ⟨w4, δ4, hl4, ht4, hv4, hk4⟩ :=
          logEvent_trace env d "REGISTRATION_FAILED" r.message w3
        refine ⟨w4, δ1 ++ δ2 ++ δ3 ++ δ4, .failed r.message, hl4, ?_, ?_, ?_, ?_⟩
        · rw [ht4, ht3, ht2, ht1]
          simp only [List.append_assoc]
        · rw [hk4, hk3, hk2, hk1]
        · rw [hk4, hk3, hk2, hk1]
          refine .failed _ a a2 ps r hmem hfree hs hps ?_
          simp [hv1, hv2, hv3, hv4]
        · simp only [hs, Bool.false_eq_true, if_false, hl4] at hspec0
          exact hspec0
      · simp only [if_true]
        obtain ⟨w4, δ4, hl4, ht4, hv4, hk4⟩ :=
          logEvent_trace env d "REGISTERED" msgRegistered w3
        simp only [hs, if_true, hl4] at hspec0
        rw [msgRegistered] at hl4
        rw [hl4]
        refine ⟨_, δ1 ++ δ2 ++ δ3 ++ δ4, .registered, rfl, ?_, ?_, ?_, hspec0⟩
        · simp only [ht4, ht3, ht2, ht1, List.append_assoc]
        · simp only [hk4, hk3, hk2, hk1]
        · simp only [hk4, hk3, hk2, hk1]
          refine .registered _ a a2 ps r hmem hfree hs hps ?_
          simp [hv1, hv2, hv3, hv4]
    · have hb : (a.status == "free") = false := by simpa using hfree
      simp only [hb, Bool.false_eq_true, if_false]
      obtain ⟨w2, δ2, hl, ht2, hv2, hk2⟩ := logEvent_trace env d "UNAVAILABLE" msgUnavailable w1
      refine ⟨w2, δ1 ++ δ2, .unavailable, hl, ?_, ?_, ?_, ?_⟩
      · rw [ht2, ht1, List.append_assoc]
      · rw [hk2, hk1]
      · rw [hk2, hk1]
        exact .unavailable _ a hmem hfree (by simp [hv1, hv2])
      · simp only [hfree, if_false, hl] at hspec0
        exact hspec0

theorem forEachDomain_trace (env : Env) (ds : List Domain) (w : World) :
    ∃ w1 δ hs, forEachDomain env ds w = (.ok (), w1) ∧ w1.trace = w.trace ++ δ ∧
      w1.catcher = { w.catcher with registeredDomains := w1.catcher.registeredDomains } ∧
      CycleTrace ds w.catcher.registeredDomains hs δ w1.catcher.registeredDomains ∧
      hs = cycleHandlings env ds w ∧ w1 = specLoop env ds w := by
  induction ds generalizing w with
  | nil => exact ⟨w, [], [], rfl, by simp, rfl, .nil _, rfl, rfl⟩
  | cons d ds ih =>
    obtain ⟨w1, δ1, h, hp, ht1, hk1, hproc, hspec⟩ := processDomain_trace env d w
    obtain ⟨w2, δ2, hs, hf, ht2, hk2, hcyc, hhs, hw⟩ := ih w1
    refine ⟨w2, δ1 ++ δ2, h :: hs, ?_, ?_, ?_, .cons hproc hcyc, ?_, ?_⟩
    · simp only [forEachDomain, hp, hf]
    · rw [ht2, ht1, List.append_assoc]
    · rw [hk2, hk1]
    · simp only [cycleHandlings, hspec, hhs]
    · simp only [specLoop, hspec, hw]

theorem loadDomains_trace (env : Env) (w : World) :
    ∃ δ, (loadDomains env w).2.trace = w.trace ++ δ ∧ view δ = [] ∧
      (loadDomains env w).2.catcher.registeredDomains = w.catcher.registeredDomains := by
  unfold loadDomains
  simp only [World.emit]
  split
  · exact ⟨_, rfl, by simp [view_cons, Event.quiet], rfl⟩
  · split <;>
      exact ⟨_, by simp only [List.append_assoc]; rfl, by simp [view_cons, Event.quiet], rfl⟩

/-- What one `checkAndRegisterDomains` call adds to the trace: the events of the
load, and when the load succeeded one segment per loaded domain. -/
theorem checkAndRegisterDomains_trace (env : Env) (w : World) :
    ∃ δ0 δ1, (checkAndRegisterDomains env w).2.trace = w.trace ++ δ0 ++ δ1 ∧
      (loadDomains env w).2.trace = w.trace ++ δ0 ∧ view δ0 = [] ∧
      ((∃ e, (loadDomains env w).1 = .error e ∧ (checkAndRegisterDomains env w).1 = .error e ∧
          δ1 = [] ∧ (checkAndRegisterDomains env w).2.catcher.registeredDomains
            = w.catcher.registeredDomains) ∨
       ((loadDomains env w).1 = .ok () ∧ (checkAndRegisterDomains env w).1 = .ok () ∧
          ∃ hs, CycleTrace (loadDomains env w).2.catcher.domains w.catcher.registeredDomains
            hs δ1 (checkAndRegisterDomains env w).2.catcher.registeredDomains ∧
            hs = cycleHandlings env (loadDomains env w).2.catcher.domains (loadDomains env w).2 ∧
            (checkAndRegisterDomains env w).2
              = specLoop env (loadDomains env w).2.catcher.domains (loadDomains env w).2)) := by
  obtain ⟨δ0, ht0, hv0, hk0⟩ := loadDomains_trace env w
  unfold checkAndRegisterDomains
  rcases hl : loadDomains env w with ⟨e | u, w0⟩
  · rw [hl] at ht0 hk0
    exact ⟨δ0, [], by simpa using ht0, ht0, hv0, Or.inl ⟨e, rfl, rfl, rfl, hk0⟩⟩
  · rw [hl] at ht0 hk0
    simp only at ht0 hk0 ⊢
    obtain ⟨w1, δ1, hs, hf, ht1, -, hcyc, hhs, hw⟩ :=
      forEachDomain_trace env w0.catcher.domains w0
    rw [hf]
    rw [hk0] at hcyc
    exact ⟨δ0, δ1, by rw [ht1, ht0], ht0, hv0, Or.inr ⟨trivial, rfl, hs, hcyc, hhs, hw⟩⟩

theorem split_at_unique {α : Type} {p : α → Bool} {A B pre post : List α} {x y : α}
    (hA : ∀ a ∈ A, p a = false) (hB : ∀ b ∈ B, p b = false) (hx : p x = true)
    (h : pre ++ x :: post = A ++ y :: B) : pre = A ∧ x = y ∧ post = B := by
  induction A generalizing pre with
  | nil =>
    cases pre with
    | nil =>
      simp only [List.nil_append, List.cons.injEq] at h
      exact ⟨rfl, h.1, h.2⟩
    | cons z pre1 =>
      simp only [List.cons_append, List.nil_append, List.cons.injEq] at h
      have hmem : x ∈ B := by rw [← h.2]; simp
      rw [hB x hmem] at hx
      cases hx
  | cons a A1 ih =>
    cases pre with
    | nil =>
      simp only [List.nil_append, List.cons_append, List.cons.injEq] at h
      rw [h.1, hA a (by simp)] at hx
      cases hx
    | cons z pre1 =>
      simp only [List.cons_append, List.cons.injEq] at h
      obtain ⟨h1, h2, h3⟩ := ih (fun a ha => hA a (by simp [ha])) h.2
      exact ⟨by rw [h.1, h1], h2, h3⟩

theorem touches_of_isPost {e : Event} (d : Domain) (h : e.isPost = true) :
    e.touches d = false := by
  cases e <;> simp_all [Event.isPost, Event.touches]

theorem isRegisterReturned_of_isPost {e : Event} (h : e.isPost = true) :
    e.isRegisterReturned = false := by
  cases e <;> simp_all [Event.isPost, Event.isRegisterReturned]

theorem quiet_of_touches {e : Event} {d : Domain} (h : e.touches d = true) :
    e.quiet = false := by
  cases e <;> simp_all [Event.quiet, Event.touches]

theorem filter_touches_view (d : Domain) (t : List Event) :
    (view t).filter (Event.touches d) = t.filter (Event.touches d) := by
  induction t with
  | nil => rfl
  | cons e t ih =>
    rw [view_cons]
    cases hq : e.quiet
    · simp only [Bool.false_eq_true, if_false, List.filter_cons, ih]
    · have ht : e.touches d = false := by
        cases h : e.touches d
        · rfl
        · rw [quiet_of_touches h] at hq
          cases hq
      simp only [if_true, List.filter_cons, ht, Bool.false_eq_true, if_false, ih]

theorem mem_of_mem_view {e : Event} {t : List Event} (h : e ∈ view t) : e ∈ t :=
  (List.mem_filter.1 h).1

theorem Processed.reg_cases {d : Domain} {reg reg1 : List Domain} {k : Handling}
    {δ : List Event} (h : Processed d reg k δ reg1) : reg1 = reg ∨ (d ∉ reg ∧ reg1 = reg ++ [d]) := by
  cases h with
  | skipped _ => exact Or.inl rfl
  | unavailable _ _ _ _ _ => exact Or.inl rfl
  | registered _ _ _ _ _ hmem _ _ _ _ => exact Or.inr ⟨hmem, rfl⟩
  | failed _ _ _ _ _ _ _ _ _ _ => exact Or.inl rfl

theorem Processed.filter_touches_of_mem {d d0 : Domain} {reg reg1 : List Domain}
    {k : Handling} {δ : List Event} (h : Processed d reg k δ reg1) (h0 : d0 ∈ reg) :
    (view δ).filter (Event.touches d0) = [] := by
  have hps : ∀ ps : List Event, (∀ e ∈ ps, e.isPost = true) →
      ps.filter (Event.touches d0) = [] := by
    intro ps hp
    rw [List.filter_eq_nil_iff]
    intro e he
    simp [touches_of_isPost d0 (hp e he)]
  cases h with
  | skipped _ => rfl
  | unavailable _ a hmem _ hv =>
    have hne : (d == d0) = false := by
      simp only [beq_eq_false_iff_ne, ne_eq]
      rintro rfl
      exact hmem h0
    simp [hv, Event.touches, hne]
  | registered _ a a2 ps r hmem _ _ hp hv =>
    have hne : (d == d0) = false := by
      simp only [beq_eq_false_iff_ne, ne_eq]
      rintro rfl
      exact hmem h0
    simp [hv, Event.touches, hne, hps ps hp]
  | failed _ a a2 ps r hmem _ _ hp hv =>
    have hne : (d == d0) = false := by
      simp only [beq_eq_false_iff_ne, ne_eq]
      rintro rfl
      exact hmem h0
    simp [hv, Event.touches, hne, hps ps hp]

theorem Processed.success_split {d d0 : Domain} {reg reg1 : List Domain} {δ : List Event}
    {k : Handling} {pre post : List Event} {r : RegistrationResult}
    (h : Processed d reg k δ reg1)
    (hsplit : view δ = pre ++ .registerReturned d0 r :: post) (hr : r.success = true) :
    d0 = d ∧ reg1 = reg ++ [d] ∧ post = [.logEvent d "REGISTERED" msgRegistered] := by
  have hmem : Event.registerReturned d0 r ∈ view δ := by rw [hsplit]; simp
  cases h with
  | skipped _ => simp at hmem
  | unavailable _ a _ _ hv => simp [hv] at hmem
  | registered _ a a2 ps r1 _ _ _ hp hv =>
    rw [hv] at hsplit
    have hs : pre ++ Event.registerReturned d0 r :: post
        = ([.checkCalled d, .checkReturned d a, .logEvent d "FREE" msgFree,
          .registerCalled d, .checkCalled d, .checkReturned d a2] ++ ps)
          ++ .registerReturned d r1 :: [.logEvent d "REGISTERED" msgRegistered] := by
      simpa using hsplit.symm
    have := split_at_unique (p := Event.isRegisterReturned) (x := .registerReturned d0 r)
      (by
        intro e he
        rcases List.mem_append.1 he with he | he
        · simp at he
          rcases he with rfl | rfl | rfl | rfl | rfl | rfl <;> rfl
        · exact isRegisterReturned_of_isPost (hp e he))
      (by simp [Event.isRegisterReturned]) rfl hs
    obtain ⟨-, h2, h3⟩ := this
    simp only [Event.registerReturned.injEq] at h2
    exact ⟨h2.1, rfl, h3⟩
  | failed _ a a2 ps r1 _ _ hf hp hv =>
    rw [hv] at hsplit
    have hs : pre ++ Event.registerReturned d0 r :: post
        = ([.checkCalled d, .checkReturned d a, .logEvent d "FREE" msgFree,
          .registerCalled d, .checkCalled d, .checkReturned d a2] ++ ps)
          ++ .registerReturned d r1 :: [.logEvent d "REGISTRATION_FAILED" r1.message] := by
      simpa using hsplit.symm
    have := split_at_unique (p := Event.isRegisterReturned) (x := .registerReturned d0 r)
      (by
        intro e he
        rcases List.mem_append.1 he with he | he
        · simp at he
          rcases he with rfl | rfl | rfl | rfl | rfl | rfl <;> rfl
        · exact isRegisterReturned_of_isPost (hp e he))
      (by simp [Event.isRegisterReturned]) rfl hs
    obtain ⟨-, h2, -⟩ := this
    simp only [Event.registerReturned.injEq] at h2
    rw [← h2.2, hr] at hf
    cases hf

theorem Reach.of_cycleTrace {v : List Event} {reg reg1 : List Domain} {ds : List Domain}
    {hs : List Handling} {δ : List Event} (h : Reach v reg)
    (hc : CycleTrace ds reg hs δ reg1) :
    Reach (v ++ view δ) reg1 := by
  induction hc generalizing v with
  | nil reg => simpa using h
  | cons hproc _ ih =>
    rw [view_append, ← List.append_assoc]
    exact ih (h.step hproc)

theorem reach_cycle (env : Env) (w : World)
    (h : Reach (view w.trace) w.catcher.registeredDomains) :
    Reach (view (checkAndRegisterDomains env w).2.trace)
      (checkAndRegisterDomains env w).2.catcher.registeredDomains := by
  obtain ⟨δ0, δ1, ht, -, hv0, hcase⟩ := checkAndRegisterDomains_trace env w
  rw [ht, view_append, view_append, hv0, List.append_nil]
  rcases hcase with ⟨e, -, -, rfl, hreg⟩ | ⟨-, -, hs, hcyc, -, -⟩
  · rw [hreg]
    simpa using h
  · exact h.of_cycleTrace hcyc

theorem reach_cycles (env : Env) (n : Nat) (w : World)
    (h : Reach (view w.trace) w.catcher.registeredDomains) :
    Reach (view (cycles env n w).trace) (cycles env n w).catcher.registeredDomains := by
  induction n generalizing w with
  | zero => exact h
  | succ n ih => exact ih _ (reach_cycle env w h)

theorem reach_fresh (env : Env) (n : Nat) (client : TransIPClient) (dirname : String) :
    Reach (view (cycles env n (World.fresh client dirname)).trace)
      (cycles env n (World.fresh client dirname)).catcher.registeredDomains :=
  reach_cycles env n _ Reach.init

theorem Reach.nodup {v : List Event} {reg : List Domain} (h : Reach v reg) : reg.Nodup := by
  induction h with
  | init => exact List.nodup_nil
  | step _ hproc ih =>
    rcases hproc.reg_cases with rfl | ⟨hmem, rfl⟩
    · exact ih
    · rw [List.nodup_append]
      refine ⟨ih, List.nodup_singleton _, ?_⟩
      intro a ha hb
      simp only [List.mem_singleton] at hb
      exact hmem (hb ▸ ha)

theorem Reach.claimed_succeeded {v : List Event} {reg : List Domain} (h : Reach v reg) :
    ∀ d ∈ reg, ∃ r, Event.registerReturned d r ∈ v ∧ r.success = true := by
  induction h with
  | init => simp
  | @step v reg reg1 d1 k δ _ hproc ih =>
    intro d0 h0
    have hold : d0 ∈ reg →
        ∃ r, Event.registerReturned d0 r ∈ v ++ view δ ∧ r.success = true := by
      intro hm
      obtain ⟨r, hr, hs⟩ := ih d0 hm
      exact ⟨r, List.mem_append_left _ hr, hs⟩
    cases hproc with
    | skipped _ => exact hold h0
    | unavailable _ _ _ _ _ => exact hold h0
    | failed _ _ _ _ _ _ _ _ _ _ => exact hold h0
    | registered _ a a2 ps r _ _ hs _ hv =>
      rcases List.mem_append.1 h0 with h0 | h0
      · exact hold h0
      · simp only [List.mem_singleton] at h0
        subst h0
        exact ⟨r, List.mem_append_right _ (by rw [hv]; simp), hs⟩

theorem Reach.after_success {v : List Event} {reg : List Domain} (h : Reach v reg)
    {pre post : List Event} {d : Domain} {r : RegistrationResult}
    (hsplit : v = pre ++ .registerReturned d r :: post) (hr : r.success = true) :
    d ∈ reg ∧ post.filter (Event.touches d) = [.logEvent d "REGISTERED" msgRegistered] := by
  induction h generalizing pre post with
  | init => simp at hsplit
  | @step v reg reg1 d1 k δ _ hproc ih =>
    have hnew : ∀ pre1 : List Event, view δ = pre1 ++ .registerReturned d r :: post →
        d ∈ reg1 ∧ post.filter (Event.touches d) = [.logEvent d "REGISTERED" msgRegistered] := by
      intro pre1 hs
      obtain ⟨rfl, rfl, rfl⟩ := hproc.success_split hs hr
      exact ⟨by simp, by simp [Event.touches]⟩
    rcases List.append_eq_append_iff.1 hsplit with ⟨a1, -, hb⟩ | ⟨c1, hv, hd⟩
    · exact hnew a1 hb
    · cases c1 with
      | nil => exact hnew [] (by simpa using hd.symm)
      | cons z c2 =>
        simp only [List.cons_append, List.cons.injEq] at hd
        obtain ⟨rfl, rfl⟩ := hd
        obtain ⟨hmem, hfil⟩ := ih hv
        refine ⟨?_, ?_⟩
        · rcases hproc.reg_cases with rfl | ⟨-, rfl⟩
          · exact hmem
          · exact List.mem_append_left _ hmem
        · rw [List.filter_append, hfil, hproc.filter_touches_of_mem hmem]
          rfl

theorem quiet_of_view_nil {δ : List Event} (h : view δ = []) {e : Event} (he : e ∈ δ) :
    e.quiet = true := by
  cases hq : e.quiet
  · have : e ∈ view δ := List.mem_filter.2 ⟨he, by simp [hq]⟩
    rw [h] at this
    cases this
  · rfl

theorem mem_view_of_not_quiet {δ : List Event} {e : Event} (he : e ∈ δ)
    (hq : e.quiet = false) : e ∈ view δ :=
  List.mem_filter.2 ⟨he, by simp [hq]⟩

theorem quiet_of_isPost {e : Event} (h : e.isPost = true) : e.quiet = false := by
  cases e with
  | http req res => cases req <;> simp_all [Event.isPost, Event.quiet]
  | _ => simp_all [Event.isPost]

theorem auditEvents_append (s t : List Event) :
    auditEvents (s ++ t) = auditEvents s ++ auditEvents t := by
  simp [auditEvents]

theorem auditEvents_view (t : List Event) : auditEvents (view t) = auditEvents t := by
  induction t with
  | nil => rfl
  | cons e t ih =>
    rw [view_cons]
    cases hq : e.quiet
    · simp only [Bool.false_eq_true, if_false, auditEvents, List.filterMap_cons] at ih ⊢
      rw [ih]
    · have : e.audit? = none := by cases e <;> simp_all [Event.quiet, Event.audit?]
      simp only [if_true, auditEvents, List.filterMap_cons, this] at ih ⊢
      exact ih

theorem auditEvents_posts {ps : List Event} (h : ∀ e ∈ ps, e.isPost = true) :
    auditEvents ps = [] := by
  rw [auditEvents, List.filterMap_eq_nil_iff]
  intro e he
  have := h e he
  cases e <;> simp_all [Event.isPost, Event.audit?]

theorem Processed.audits_eq {d : Domain} {reg reg1 : List Domain} {k : Handling}
    {δ : List Event} (h : Processed d reg k δ reg1) : auditEvents δ = k.audits d := by
  rw [← auditEvents_view]
  cases h with
  | skipped _ => rfl
  | unavailable _ a _ _ hv => rw [hv]; rfl
  | registered _ a a2 ps r _ _ _ hp hv =>
    rw [hv, auditEvents_append, auditEvents_append, auditEvents_posts hp]
    rfl
  | failed _ a a2 ps r _ _ _ hp hv =>
    rw [hv, auditEvents_append, auditEvents_append, auditEvents_posts hp]
    rfl

theorem CycleTrace.audits_flatten {ds : List Domain} {reg reg1 : List Domain}
    {hs : List Handling} {δ : List Event} (h : CycleTrace ds reg hs δ reg1) :
    auditEvents δ = (List.zipWith Handling.audits ds hs).flatten := by
  induction h with
  | nil _ => rfl
  | cons hproc _ ih =>
    rw [auditEvents_append, hproc.audits_eq, ih]
    rfl

theorem CycleTrace.length_eq {ds : List Domain} {reg reg1 : List Domain}
    {hs : List Handling} {δ : List Event} (h : CycleTrace ds reg hs δ reg1) :
    hs.length = ds.length := by
  induction h with
  | nil _ => rfl
  | cons _ _ ih => simp [ih]

theorem Processed.no_timer {d : Domain} {reg reg1 : List Domain} {k : Handling}
    {δ : List Event} (h : Processed d reg k δ reg1) : ∀ e ∈ δ, e.isSetTimeout = false := by
  intro e he
  cases hq : e.quiet
  · have hv := mem_view_of_not_quiet he hq
    have hpost : ∀ ps : List Event, (∀ x ∈ ps, x.isPost = true) → e ∈ ps →
        e.isSetTimeout = false := by
      intro ps hp hm
      have := hp e hm
      cases e <;> simp_all [Event.isPost, Event.isSetTimeout]
    cases h with
    | skipped _ => cases he
    | unavailable _ a _ _ hvw =>
      rw [hvw] at hv
      simp at hv
      rcases hv with rfl | rfl | rfl <;> rfl
    | registered _ a a2 ps r _ _ _ hp hvw =>
      rw [hvw] at hv
      simp at hv
      rcases hv with rfl | rfl | rfl | rfl | rfl | rfl | hm | rfl | rfl
      all_goals first | rfl | exact hpost ps hp hm
    | failed _ a a2 ps r _ _ _ hp hvw =>
      rw [hvw] at hv
      simp at hv
      rcases hv with rfl | rfl | rfl | rfl | rfl | rfl | hm | rfl | rfl
      all_goals first | rfl | exact hpost ps hp hm
  · cases e <;> simp_all [Event.quiet, Event.isSetTimeout]

theorem CycleTrace.timer_free {ds : List Domain} {reg reg1 : List Domain}
    {hs : List Handling} {δ : List Event} (h : CycleTrace ds reg hs δ reg1) :
    ∀ e ∈ δ, e.isSetTimeout = false := by
  induction h with
  | nil _ => simp
  | cons hproc _ ih =>
    intro e he
    rcases List.mem_append.1 he with he | he
    · exact hproc.no_timer e he
    · exact ih e he

theorem Processed.probed {d : Domain} {reg reg1 : List Domain} {k : Handling}
    {δ : List Event} (h : Processed d reg k δ reg1) (hd : d ∉ reg) :
    Event.checkCalled d ∈ δ ∧ ∃ s m, Event.logEvent d s m ∈ δ := by
  cases h with
  | skipped hm => exact absurd hm hd
  | unavailable _ a _ _ hv =>
    exact ⟨mem_of_mem_view (by rw [hv]; simp), "UNAVAILABLE", msgUnavailable,
      mem_of_mem_view (by rw [hv]; simp)⟩
  | registered _ a a2 ps r _ _ _ _ hv =>
    exact ⟨mem_of_mem_view (by rw [hv]; simp), "FREE", msgFree,
      mem_of_mem_view (by rw [hv]; simp)⟩
  | failed _ a a2 ps r _ _ _ _ hv =>
    exact ⟨mem_of_mem_view (by rw [hv]; simp), "FREE", msgFree,
      mem_of_mem_view (by rw [hv]; simp)⟩

theorem CycleTrace.probes_listed {ds : List Domain} {reg reg1 : List Domain}
    {hs : List Handling} {δ : List Event} (h : CycleTrace ds reg hs δ reg1)
    {d0 : Domain} (hin : d0 ∈ ds) (hd : d0 ∉ reg) :
    Event.checkCalled d0 ∈ δ ∧ ∃ s m, Event.logEvent d0 s m ∈ δ := by
  induction h with
  | nil _ => cases hin
  | @cons d ds reg reg1 reg2 k hs b t hproc _ ih =>
    by_cases heq : d0 = d
    · subst heq
      obtain ⟨h1, s, m, h2⟩ := hproc.probed hd
      exact ⟨List.mem_append_left _ h1, s, m, List.mem_append_left _ h2⟩
    · have hin1 : d0 ∈ ds := by
        rcases List.mem_cons.1 hin with h | h
        · exact absurd h heq
        · exact h
      have hd1 : d0 ∉ reg1 := by
        rcases hproc.reg_cases with rfl | ⟨-, rfl⟩
        · exact hd
        · simp [hd, heq]
      obtain ⟨h1, s, m, h2⟩ := ih hin1 hd1
      exact ⟨List.mem_append_right _ h1, s, m, List.mem_append_right _ h2⟩

theorem CycleTrace.reg_grows {ds : List Domain} {reg reg1 : List Domain}
    {hs : List Handling} {δ : List Event} (h : CycleTrace ds reg hs δ reg1) :
    reg <+: reg1 := by
  induction h with
  | nil _ => exact List.prefix_refl _
  | cons hproc _ ih =>
    rcases hproc.reg_cases with rfl | ⟨-, rfl⟩
    · exact ih
    · exact (List.prefix_append _ _).trans ih

theorem cycle_reg_grows (env : Env) (w : World) :
    w.catcher.registeredDomains
      <+: (checkAndRegisterDomains env w).2.catcher.registeredDomains := by
  obtain ⟨δ0, δ1, -, -, -, hcase⟩ := checkAndRegisterDomains_trace env w
  rcases hcase with ⟨e, -, -, -, hreg⟩ | ⟨-, -, hs, hcyc, -, -⟩
  · rw [hreg]
  · exact hcyc.reg_grows

theorem cycles_reg_grows (env : Env) (k : Nat) (w : World) :
    w.catcher.registeredDomains <+: (cycles env k w).catcher.registeredDomains := by
  induction k generalizing w with
  | zero => exact List.prefix_refl _
  | succ k ih => exact (cycle_reg_grows env w).trans (ih _)

theorem cycles_add (env : Env) (n k : Nat) (w : World) :
    cycles env (n + k) w = cycles env k (cycles env n w) := by
  induction n generalizing w with
  | zero => simp [cycles]
  | succ n ih =>
    rw [Nat.succ_add]
    exact ih _

theorem registerDomainCatch_eq (env : Env) (error : JsError) :
    registerDomainCatch env error
      = { success := false, message := failureDetail env error, data := none } := by
  obtain ⟨message, response⟩ := error
  cases response with
  | none => rfl
  | some response =>
    obtain ⟨status, data⟩ := response
    cases data with
    | bool b => cases b <;> rfl
    | num n =>
      by_cases h : n = 0 <;>
        simp [registerDomainCatch, failureDetail, JsVal.truthy, JsVal.typeofObject, h]
    | str s =>
      by_cases h : s = "" <;>
        simp [registerDomainCatch, failureDetail, JsVal.truthy, JsVal.typeofObject, h]
    | _ => rfl

theorem no_post_of_view {δ : List Event} (h : ∀ e ∈ view δ, e.isPost = false) :
    ∀ e ∈ δ, e.isPost = false := by
  intro e he
  cases hp : e.isPost
  · rfl
  · have := h e (mem_view_of_not_quiet he (quiet_of_isPost hp))
    rw [hp] at this
    cases this

theorem postAnswer?_skip {δ : List Event} (h : ∀ e ∈ δ, e.isPost = false)
    (rest : List Event) : postAnswer? (δ ++ rest) = postAnswer? rest := by
  induction δ with
  | nil => rfl
  | cons e δ ih =>
    have he := h e (by simp)
    have ih1 := ih (fun x hx => h x (by simp [hx]))
    cases e with
    | http req res =>
      cases req with
      | get _ _ => simpa [postAnswer?] using ih1
      | post _ _ _ => simp [Event.isPost] at he
    | _ => simpa [postAnswer?] using ih1

theorem checkDomainAvailability_no_post (env : Env) (d : Domain) (w : World) :
    ∃ a w1 δ, checkDomainAvailability env d w = (.ok a, w1) ∧ w1.trace = w.trace ++ δ ∧
      ∀ e ∈ δ, e.isPost = false := by
  obtain ⟨a, w1, δ, hc, ht, hv, -, -⟩ := checkDomainAvailability_trace env d w
  refine ⟨a, w1, δ, hc, ht, no_post_of_view ?_⟩
  intro e he
  rw [hv] at he
  simp at he
  rcases he with rfl | rfl <;> rfl

/-- Scenario 1 of the specification, by the specification's algorithm: `free1.test`
is registered. -/
theorem scenario1_handlings :
    cycleHandlings envScenario1 (loadDomains envScenario1 startWorld).2.catcher.domains
      (loadDomains envScenario1 startWorld).2 = [.registered] := rfl

/-- Scenario 3 of the specification, with the rejection of `envRejected`: the handling
is a failure carrying the message of the result. -/
theorem scenario3_handlings :
    cycleHandlings envRejected (loadDomains envRejected startWorld).2.catcher.domains
      (loadDomains envRejected startWorld).2
      = [.failed (.str "Request failed with status code 400")] := rfl

theorem first_split {b : Domain} {ds : List Domain} (h : b ∈ ds) :
    ∃ pre post, ds = pre ++ b :: post ∧ b ∉ pre := by
  induction ds with
  | nil => cases h
  | cons d ds ih =>
    by_cases hd : b = d
    · exact ⟨[], ds, by simp [hd], by simp⟩
    · have hin : b ∈ ds := by
        rcases List.mem_cons.1 h with h | h
        · exact absurd h hd
        · exact h
      obtain ⟨pre, post, hs, hp⟩ := ih hin
      exact ⟨d :: pre, post, by simp [hs], by simp [hd, hp]⟩

theorem forEachDomain_append (env : Env) (pre rest : List Domain) (w : World) :
    forEachDomain env (pre ++ rest) w
      = forEachDomain env rest (forEachDomain env pre w).2 := by
  induction pre generalizing w with
  | nil => rfl
  | cons d pre ih =>
    obtain ⟨w1, δ, k, hp, -⟩ := processDomain_trace env d w
    simp only [List.cons_append, forEachDomain, hp]
    exact ih w1

theorem CycleTrace.reg_subset {ds : List Domain} {reg reg1 : List Domain}
    {hs : List Handling} {δ : List Event} (h : CycleTrace ds reg hs δ reg1) :
    ∀ x ∈ reg1, x ∈ reg ∨ x ∈ ds := by
  induction h with
  | nil _ => exact fun x hx => Or.inl hx
  | @cons d ds reg reg1 reg2 k hs b t hproc _ ih =>
    intro x hx
    rcases ih x hx with h | h
    · rcases hproc.reg_cases with rfl | ⟨-, rfl⟩
      · exact Or.inl h
      · rcases List.mem_append.1 h with h | h
        · exact Or.inl h
        · exact Or.inr (by simp at h; simp [h])
    · exact Or.inr (List.mem_cons_of_mem _ h)

theorem processDomain_probe (env : Env) (b : Domain) (w : World)
    (hnot : b ∉ w.catcher.registeredDomains) :
    ∃ a w1 w2, checkDomainAvailability env b w = (.ok a, w1) ∧
      logEvent env b (if a.status = "free" then "FREE" else "UNAVAILABLE")
        (if a.status = "free" then msgFree else msgUnavailable) w1 = (.ok (), w2) ∧
      w2.trace <+: (processDomain env b w).2.trace := by
  have hc0 : w.catcher.registeredDomains.contains b = false := by simpa using hnot
  obtain ⟨a, w1, δ1, hc, -⟩ := checkDomainAvailability_trace env b w
  unfold processDomain
  simp only [hc0, Bool.false_eq_true, if_false, hc]
  by_cases hfree : a.status = "free"
  · obtain ⟨w2, δ2, hl, -⟩ := logEvent_trace env b "FREE" msgFree w1
    refine ⟨a, w1, w2, rfl, by simp only [hfree, if_true]; exact hl, ?_⟩
    simp only [hfree, beq_self_eq_true, if_true]
    rw [msgFree] at hl
    rw [hl]
    simp only
    obtain ⟨r, w3, δ3, a2, ps, hr, ht3, -⟩ := registerDomain_view env b w2
    rw [hr]
    simp only
    cases hs : r.success
    · simp only [Bool.false_eq_true, if_false]
      obtain ⟨w4, δ4, hl4, ht4, -⟩ := logEvent_trace env b "REGISTRATION_FAILED" r.message w3
      rw [hl4]
      simp only
      rw [ht4, ht3, List.append_assoc]
      exact List.prefix_append _ _
    · simp only [if_true]
      obtain ⟨w4, δ4, hl4, ht4, -⟩ := logEvent_trace env b "REGISTERED" msgRegistered w3
      rw [msgRegistered] at hl4
      rw [hl4]
      simp only
      rw [ht4, ht3, List.append_assoc]
      exact List.prefix_append _ _
  · have hb : (a.status == "free") = false := by simpa using hfree
    obtain ⟨w2, δ2, hl, -⟩ := logEvent_trace env b "UNAVAILABLE" msgUnavailable w1
    refine ⟨a, w1, w2, rfl, by simp only [hfree, if_false]; exact hl, ?_⟩
    simp only [hb, Bool.false_eq_true, if_false]
    rw [msgUnavailable] at hl
    rw [hl]

theorem Processed.unchanged_of_failure {d : Domain} {reg reg1 : List Domain} {k : Handling}
    {δ : List Event} (h : Processed d reg k δ reg1) {r : RegistrationResult}
    (hret : Event.registerReturned d r ∈ δ) (hfail : r.success = false) : reg1 = reg := by
  have hv := mem_view_of_not_quiet hret rfl
  cases h with
  | skipped _ => rfl
  | unavailable _ a _ _ hvw => rfl
  | failed _ a a2 ps r1 _ _ _ _ _ => rfl
  | registered _ a a2 ps r1 _ _ hs hpp hvw =>
    exfalso
    rw [hvw] at hv
    simp at hv
    rcases hv with hm | h
    · have := hpp _ hm
      simp [Event.isPost] at this
    · rw [h, hs] at hfail
      cases hfail

/-! ## The claims -/

/-- C1 (amended). On a new `DomainCatcher`, after any number of consecutive cycles over
any watched lists and for any behaviour of the outside world: wherever the trace shows
`registerDomain` returning success for `d`, the domain is in the claimed set and the
only engine action on `d` in the rest of the trace (calls of `checkDomainAvailability`
or `registerDomain` for `d`, audit events for `d`), in the same cycle or a later
one, is the single `REGISTERED` audit event that records this success. -/
theorem claimed_domain_left_alone (env : Env) (client : TransIPClient) (dirname : String)
    (n : Nat) (d : Domain) (r : RegistrationResult) (pre post : List Event)
    (hsplit : (cycles env n (World.fresh client dirname)).trace
      = pre ++ .registerReturned d r :: post)
    (hr : r.success = true) :
    d ∈ (cycles env n (World.fresh client dirname)).catcher.registeredDomains ∧
    post.filter (Event.touches d) = [.logEvent d "REGISTERED" msgRegistered] := by
  have hreach := reach_fresh env n client dirname
  have hview : view (cycles env n (World.fresh client dirname)).trace
      = view pre ++ .registerReturned d r :: view post := by
    rw [hsplit]
    simp [view_cons, Event.quiet]
  obtain ⟨h1, h2⟩ := hreach.after_success hview hr
  exact ⟨h1, by rw [← filter_touches_view]; exact h2⟩

/-- C2. `checkDomainAvailability` never throws; it returns one of its two literals, and
the status is `'free'` exactly when a client was obtained, the GET of
`/domain-availability/<domain>` was answered with a response, and the body of that
response has `availability.status` or top-level `status` equal to `'free'`. -/
theorem checkDomainAvailability_conservative (env : Env) (d : Domain) (w : World) :
    ∃ a w1, checkDomainAvailability env d w = (.ok a, w1) ∧
      (a = Availability.free ∨ a = Availability.unavailable) ∧
      (a.status = "free" ↔
        ∃ client w0 response,
          getAuthenticatedClient env (w.emit (.checkCalled d)) = (.ok client, w0) ∧
          env.http w0.trace
            (.get (client.baseURL ++ "/domain-availability/" ++ d) client.authorization)
              = .ok response ∧
          reportsFree response.data = true) := by
  unfold checkDomainAvailability checkDomainAvailabilityTry httpCall
  rcases hg : getAuthenticatedClient env (w.emit (.checkCalled d)) with ⟨e | client, w0⟩
  · refine ⟨Availability.unavailable, _, rfl, Or.inr rfl, ?_⟩
    simp [Availability.unavailable]
  · simp only
    rcases hh : env.http w0.trace
      (.get (client.baseURL ++ "/domain-availability/" ++ d) client.authorization)
      with e | response
    · refine ⟨Availability.unavailable, _, rfl, Or.inr rfl, ?_⟩
      constructor
      · intro h
        simp [Availability.unavailable] at h
      · rintro ⟨c, w0', resp, h1, h2, -⟩
        simp only [Prod.mk.injEq, Except.ok.injEq] at h1
        obtain ⟨rfl, rfl⟩ := h1
        rw [hh] at h2
        cases h2
    · simp only [interpretAvailability_eq]
      cases hf : reportsFree response.data
      · refine ⟨Availability.unavailable, _, rfl, Or.inr rfl, ?_⟩
        constructor
        · intro h
          simp [Availability.unavailable] at h
        · rintro ⟨c, w0', resp, h1, h2, h3⟩
          simp only [Prod.mk.injEq, Except.ok.injEq] at h1
          obtain ⟨rfl, rfl⟩ := h1
          rw [hh] at h2
          simp only [Except.ok.injEq] at h2
          subst h2
          rw [hf] at h3
          cases h3
      · refine ⟨Availability.free, _, rfl, Or.inl rfl, ?_⟩
        constructor
        · intro _
          exact ⟨client, w0, response, rfl, hh, hf⟩
        · intro _
          rfl

/-- C3. `registerDomain` never throws and begins with its own
`checkDomainAvailability`; no `POST /domains` is issued before that re-check has
returned, and when the re-check returns anything other than `'free'` the call returns
a failure at once: the only thing it still adds to the trace is its return. -/
theorem registerDomain_rechecks_first (env : Env) (d : Domain) (w : World) :
    ∃ a w1 r w2 δ,
      checkDomainAvailability env d (w.emit (.registerCalled d)) = (.ok a, w1) ∧
      registerDomain env d w = (.ok r, w2) ∧
      w2.trace = w1.trace ++ δ ∧
      (w1.trace.drop w.trace.length).any Event.isPost = false ∧
      (a.status = "free" ∨ (r.success = false ∧ δ = [.registerReturned d r])) := by
  obtain ⟨a, w1, r, w2, δ, hc, hr, ht, -, hafter⟩ := registerDomain_trace env d w
  obtain ⟨a1, w1', δc, hc', htc, hpost⟩ :=
    checkDomainAvailability_no_post env d (w.emit (.registerCalled d))
  rw [hc] at hc'
  simp only [Prod.mk.injEq, Except.ok.injEq] at hc'
  obtain ⟨rfl, rfl⟩ := hc'
  refine ⟨a, w1, r, w2, δ, hc, hr, ht, ?_, ?_⟩
  · rw [htc]
    simp only [World.emit, List.append_assoc, List.drop_left]
    rw [List.any_eq_false]
    intro e he
    simp only [List.singleton_append, List.mem_cons] at he
    rcases he with rfl | he
    · simp [Event.isPost]
    · simp [hpost e he]
  · rcases hafter with ⟨hn, hδ, rfl⟩ | ⟨hf, -⟩ | ⟨hf, -⟩
    · exact Or.inr ⟨rfl, hδ⟩
    · exact Or.inl hf
    · exact Or.inl hf

/-- C5. When the watched list was loaded, `checkAndRegisterDomains` returns normally and
does what the specification's per-cycle algorithm prescribes (`specLoop`). The events it
adds after the load are the concatenation, in list order, of one segment per domain
(`CycleTrace`, `Processed`), each handled against the claimed set its predecessor left
and in the way decided by what `checkDomainAvailability` and `registerDomain` return
at that point (`cycleHandlings`, `specIteration`): nothing for a claimed domain; the
probe and `UNAVAILABLE`, without a `registerDomain` call, when the probe is not free;
`FREE`, the `registerDomain` call and `REGISTERED`, with the domain added to the claimed
set, when registration succeeds; `FREE`, the call and `REGISTRATION_FAILED` with the
result's message when it fails. So the audit events of the cycle are the concatenation
of the prescribed blocks. The load itself, failed or not, adds no audit event. -/
theorem cycle_audit_blocks (env : Env) (w : World) :
    ∃ δ0 δ1, (checkAndRegisterDomains env w).2.trace = w.trace ++ δ0 ++ δ1 ∧
      (loadDomains env w).2.trace = w.trace ++ δ0 ∧ auditEvents δ0 = [] ∧
      ((∃ e, (loadDomains env w).1 = .error e ∧ δ1 = []) ∨
       ((loadDomains env w).1 = .ok () ∧
        checkAndRegisterDomains env w
          = (.ok (), specLoop env (loadDomains env w).2.catcher.domains (loadDomains env w).2) ∧
        CycleTrace (loadDomains env w).2.catcher.domains w.catcher.registeredDomains
          (cycleHandlings env (loadDomains env w).2.catcher.domains (loadDomains env w).2)
          δ1 (checkAndRegisterDomains env w).2.catcher.registeredDomains ∧
        auditEvents δ1
          = (List.zipWith Handling.audits (loadDomains env w).2.catcher.domains
              (cycleHandlings env (loadDomains env w).2.catcher.domains
                (loadDomains env w).2)).flatten))
    := by
  obtain ⟨δ0, δ1, ht, hl, hv0, hcase⟩ := checkAndRegisterDomains_trace env w
  refine ⟨δ0, δ1, ht, hl, ?_, ?_⟩
  · rw [← auditEvents_view, hv0]
    rfl
  · rcases hcase with ⟨e, he, -, hδ, -⟩ | ⟨hok, hok2, hs, hcyc, rfl, hw⟩
    · exact Or.inl ⟨e, he, hδ⟩
    · exact Or.inr ⟨hok, Prod.ext hok2 hw, hcyc, hcyc.audits_flatten⟩

/-- C6. Whatever fails while earlier domains of the list are processed (probe,
registration call, audit-log write: every behaviour of the outside world is allowed), a
cycle whose watched list was loaded completes without throwing, and every domain `b` of
the list that was not in the claimed set at the start of the cycle is processed: the
loop over the domains before its first occurrence returns normally; in the world that
loop leaves, `checkDomainAvailability` is run for `b` and then `logEvent` for `b` (with
`FREE` or `UNAVAILABLE`, by the verdict); and what these two calls leave in the trace is
part of the trace of the cycle, after the start of the cycle. -/
theorem cycle_isolation (env : Env) (w : World) (b : Domain)
    (hload : (loadDomains env w).1 = .ok ())
    (hin : b ∈ (loadDomains env w).2.catcher.domains)
    (hreg : b ∉ w.catcher.registeredDomains) :
    (checkAndRegisterDomains env w).1 = .ok () ∧
    (∃ pre post a w1 w2,
      (loadDomains env w).2.catcher.domains = pre ++ b :: post ∧ b ∉ pre ∧
      (forEachDomain env pre (loadDomains env w).2).1 = .ok () ∧
      w.trace <+: (forEachDomain env pre (loadDomains env w).2).2.trace ∧
      checkDomainAvailability env b (forEachDomain env pre (loadDomains env w).2).2
        = (.ok a, w1) ∧
      logEvent env b (if a.status = "free" then "FREE" else "UNAVAILABLE")
        (if a.status = "free" then msgFree else msgUnavailable) w1 = (.ok (), w2) ∧
      w2.trace <+: (checkAndRegisterDomains env w).2.trace) ∧
    Event.checkCalled b ∈ (checkAndRegisterDomains env w).2.trace.drop w.trace.length ∧
    ∃ s m, Event.logEvent b s m
      ∈ (checkAndRegisterDomains env w).2.trace.drop w.trace.length := by
  obtain ⟨δ0, δ1, ht, hlt, -, hcase⟩ := checkAndRegisterDomains_trace env w
  rcases hcase with ⟨e, he, -⟩ | ⟨-, hok, hs, hcyc, -, -⟩
  · rw [hload] at he
    cases he
  · refine ⟨hok, ?_, ?_⟩
    · obtain ⟨pre, post, hsplit, hpre⟩ := first_split hin
      have hregs : (loadDomains env w).2.catcher.registeredDomains
          = w.catcher.registeredDomains := by
        obtain ⟨_, -, -, h⟩ := loadDomains_trace env w
        exact h
      obtain ⟨wB, δB, hsB, hfB, htB, -, hcycB, -, -⟩ :=
        forEachDomain_trace env pre (loadDomains env w).2
      have hnot : b ∉ wB.catcher.registeredDomains := by
        intro hmem
        rcases hcycB.reg_subset b hmem with h | h
        · rw [hregs] at h
          exact hreg h
        · exact hpre h
      obtain ⟨a, w1, w2, hc, hlog, hpfx⟩ := processDomain_probe env b wB hnot
      obtain ⟨w3, δ3, k, hp, ht3, -, -, -⟩ := processDomain_trace env b wB
      obtain ⟨w4, δ4, hs4, hf4, ht4, -, -, -, -⟩ := forEachDomain_trace env post w3
      have hcycle : checkAndRegisterDomains env w
          = forEachDomain env (loadDomains env w).2.catcher.domains (loadDomains env w).2 := by
        unfold checkAndRegisterDomains
        rcases hl : loadDomains env w with ⟨e | u, w0⟩
        · rw [hl] at hload
          cases hload
        · rfl
      have hfinal : (checkAndRegisterDomains env w).2 = w4 := by
        rw [hcycle, hsplit, forEachDomain_append, hfB]
        simp only [forEachDomain, hp, hf4]
      refine ⟨pre, post, a, w1, w2, hsplit, hpre, ?_, ?_, ?_, ?_, ?_⟩
      · rw [hfB]
      · rw [hfB]
        simp only
        rw [htB, hlt, List.append_assoc]
        exact List.prefix_append _ _
      · rw [hfB]
        exact hc
      · exact hlog
      · rw [hfinal, ht4]
        rw [hp] at hpfx
        exact hpfx.trans (List.prefix_append _ _)
    · rw [ht, List.append_assoc, List.drop_left]
      obtain ⟨h1, s, m, h2⟩ := hcyc.probes_listed hin hreg
      exact ⟨List.mem_append_right _ h1, s, m, List.mem_append_right _ h2⟩

/-- C7 (amended). `registerDomain` never throws. When its `POST /domains` fails it
returns `success: false` with the failure detail of the error (`failureDetail`: the
response body if it is present and truthy, JSON-serialised when it is an object, as it
is otherwise; the raw error text when there is no response or the body is absent or
falsy); when the POST succeeds it returns `success: true` with the response data; when
no POST was issued it returns `success: false`. -/
theorem registerDomain_outcome (env : Env) (d : Domain) (w : World) :
    ∃ r w1, registerDomain env d w = (.ok r, w1) ∧
      match postAnswer? (w1.trace.drop w.trace.length) with
      | some (.ok response) => r.success = true ∧ r.data = some response.data
      | some (.error error) => r.success = false ∧ r.message = failureDetail env error
      | none => r.success = false := by
  obtain ⟨a, w1, r, w2, δ, hc, hr, ht, -, hafter⟩ := registerDomain_trace env d w
  obtain ⟨a1, w1', δc, hc', htc, hpost⟩ :=
    checkDomainAvailability_no_post env d (w.emit (.registerCalled d))
  rw [hc] at hc'
  simp only [Prod.mk.injEq, Except.ok.injEq] at hc'
  obtain ⟨rfl, rfl⟩ := hc'
  refine ⟨r, w2, hr, ?_⟩
  have hnew : w2.trace.drop w.trace.length = (.registerCalled d :: δc) ++ δ := by
    rw [ht, htc]
    simp [World.emit]
  have hskip : ∀ e ∈ Event.registerCalled d :: δc, e.isPost = false := by
    intro e he
    rcases List.mem_cons.1 he with rfl | he
    · rfl
    · exact hpost e he
  rw [hnew, postAnswer?_skip hskip]
  rcases hafter with ⟨-, rfl, rfl⟩ | ⟨-, δq, e, hq, rfl, rfl⟩ |
    ⟨-, δq, url, auth, res, hq, rfl, rfl⟩
  · simp [postAnswer?, notAvailableResult]
  · rw [postAnswer?_skip (no_post_of_view (by simp [hq]))]
    simp [postAnswer?, registerDomainCatch_eq]
  · rw [postAnswer?_skip (no_post_of_view (by simp [hq]))]
    cases res with
    | ok response => simp [postAnswer?, registeredResult]
    | error e => simp [postAnswer?, registerDomainCatch_eq]

/-- C9. Whether the cycle completes or throws (a failed load of the domain list
included), `runDomainCheck` returns normally, and what it leaves is the world the cycle
left with one timer added: `setTimeout` with delay `checkIntervalSeconds * 1000`,
registered after every event of the cycle; the cycle itself registers no timer. -/
theorem runDomainCheck_reschedules (env : Env) (checkIntervalSeconds : Int) (w : World) :
    ∃ δ, (checkAndRegisterDomains env (w.emit (.now (env.now w.trace)))).2.trace
        = w.trace ++ δ ∧
      δ.any Event.isSetTimeout = false ∧
      runDomainCheck env checkIntervalSeconds w
        = (.ok (), (checkAndRegisterDomains env (w.emit (.now (env.now w.trace)))).2.emit
            (.setTimeout (checkIntervalSeconds * 1000))) := by
  obtain ⟨δ0, δ1, ht, -, hv0, hcase⟩ :=
    checkAndRegisterDomains_trace env (w.emit (.now (env.now w.trace)))
  refine ⟨.now (env.now w.trace) :: δ0 ++ δ1, ?_, ?_, ?_⟩
  · rw [ht]
    simp [World.emit]
  · rw [List.any_eq_false]
    intro e he
    have hq : ∀ x : Event, x.quiet = true → ¬ x.isSetTimeout = true := by
      intro x hx
      cases x <;> simp_all [Event.quiet, Event.isSetTimeout]
    simp only [List.cons_append, List.mem_cons, List.mem_append] at he
    rcases he with rfl | he | he
    · simp [Event.isSetTimeout]
    · exact hq e (quiet_of_view_nil hv0 he)
    · rcases hcase with ⟨_, -, -, rfl, -⟩ | ⟨-, -, hs, hcyc, -, -⟩
      · cases he
      · simp [hcyc.timer_free e he]
  · simp only [runDomainCheck]
    rcases checkAndRegisterDomains env (w.emit (.now (env.now w.trace))) with ⟨_ | _, w1⟩ <;> rfl

/-- C10. A new `DomainCatcher` has an empty claimed set; after any number of cycles over
any watched lists and for any behaviour of the outside world, `registeredDomains` has no
domain twice, every domain in it has a `registerDomain` call in the trace that returned
success, and the claimed set after `n` cycles is a prefix of the one after `n + k`
cycles: nothing is ever removed. -/
theorem claimed_set_invariant (env : Env) (client : TransIPClient) (dirname : String)
    (n k : Nat) :
    (World.fresh client dirname).catcher.registeredDomains = [] ∧
    (cycles env n (World.fresh client dirname)).catcher.registeredDomains.Nodup ∧
    (∀ d ∈ (cycles env n (World.fresh client dirname)).catcher.registeredDomains,
      ∃ r, Event.registerReturned d r ∈ (cycles env n (World.fresh client dirname)).trace ∧
        r.success = true) ∧
    (cycles env n (World.fresh client dirname)).catcher.registeredDomains
      <+: (cycles env (n + k) (World.fresh client dirname)).catcher.registeredDomains := by
  have hreach := reach_fresh env n client dirname
  refine ⟨rfl, hreach.nodup, ?_, ?_⟩
  · intro d hd
    obtain ⟨r, hr, hs⟩ := hreach.claimed_succeeded d hd
    exact ⟨r, mem_of_mem_view hr, hs⟩
  · rw [cycles_add]
    exact cycles_reg_grows env k _

/-- C4 (amended). When the loop iteration for `d` sees `registerDomain` return a
failure, it leaves the claimed set exactly as it found it; and a later cycle that starts
with `d` still unclaimed (no other occurrence of `d` in a list was registered in between)
and loads a list containing `d` probes `d` again with `checkDomainAvailability`. -/
theorem failure_does_not_claim (env : Env) (d : Domain) (w : World) (r : RegistrationResult)
    (wn : World)
    (hret : Event.registerReturned d r ∈ (processDomain env d w).2.trace.drop w.trace.length)
    (hfail : r.success = false)
    (hunclaimed : d ∉ wn.catcher.registeredDomains)
    (hload : (loadDomains env wn).1 = .ok ())
    (hin : d ∈ (loadDomains env wn).2.catcher.domains) :
    (processDomain env d w).2.catcher.registeredDomains = w.catcher.registeredDomains ∧
    Event.checkCalled d ∈ (checkAndRegisterDomains env wn).2.trace.drop wn.trace.length := by
  constructor
  · obtain ⟨w1, δ, k, hp, ht, -, hproc, -⟩ := processDomain_trace env d w
    rw [hp] at hret ⊢
    simp only at hret ⊢
    rw [ht, List.drop_left] at hret
    exact hproc.unchanged_of_failure hret hfail
  · obtain ⟨δ0, δ1, ht, -, -, hcase⟩ := checkAndRegisterDomains_trace env wn
    rw [ht, List.append_assoc, List.drop_left]
    rcases hcase with ⟨e, he, -⟩ | ⟨-, -, hs, hcyc, -, -⟩
    · rw [hload] at he
      cases he
    · exact List.mem_append_right _ (hcyc.probes_listed hin hunclaimed).1

/-- C1, counterexample. Scenario 1 (`free1.test` is free, its registration succeeds):
entry 16 of the trace of the first cycle is `registerDomain` returning success for
`free1.test`, and entry 17, after it, is an audit event for `free1.test`. -/
theorem at_most_once_counterexample :
    (cycles envScenario1 1 startWorld).trace[16]?
      = some (.registerReturned "free1.test" (registeredResult "free1.test" created)) ∧
    (registeredResult "free1.test" created).success = true ∧
    (cycles envScenario1 1 startWorld).trace[17]?
      = some (.logEvent "free1.test" "REGISTERED" msgRegistered) :=
  ⟨rfl, rfl, rfl⟩

/-- C1, witness: two cycles of scenario 1. -/
theorem claimed_domain_left_alone_witness :
    "free1.test" ∈ (cycles envScenario1 2 startWorld).catcher.registeredDomains ∧
    ((cycles envScenario1 2 startWorld).trace.drop 17).filter (Event.touches "free1.test")
      = [.logEvent "free1.test" "REGISTERED" msgRegistered] :=
  claimed_domain_left_alone envScenario1 TransIPClient.new "/app/src" 2 "free1.test"
    (registeredResult "free1.test" created)
    ((cycles envScenario1 2 startWorld).trace.take 16)
    ((cycles envScenario1 2 startWorld).trace.drop 17) rfl rfl

/-- C4, counterexample. The watched list names `a.test` twice. In the first cycle the
first occurrence is probed as free (entry 5) and `registerDomain` returns a failure
for it (entry 16); the second occurrence is then registered. The first cycle ends
after 41 events. In the second cycle `a.test` is still in the watched list, yet the
cycle contains no `checkDomainAvailability` call for it. -/
theorem failure_retry_counterexample :
    (cycles envDuplicate 1 startWorld).trace[5]?
      = some (.checkReturned "a.test" Availability.free) ∧
    (cycles envDuplicate 1 startWorld).trace[16]?
      = some (.registerReturned "a.test" (registerDomainCatch envDuplicate badRequest)) ∧
    (registerDomainCatch envDuplicate badRequest).success = false ∧
    (cycles envDuplicate 1 startWorld).trace.length = 41 ∧
    (cycles envDuplicate 2 startWorld).catcher.domains = ["a.test", "a.test"] ∧
    ((cycles envDuplicate 2 startWorld).trace.drop 41).any (Event.touches "a.test") = false :=
  ⟨rfl, rfl, rfl, by decide, by decide, by decide⟩

/-- C4, witness: the registration of `a.test` is rejected in the first cycle and the
second cycle probes it again. -/
theorem failure_does_not_claim_witness :
    (processDomain envRejected "a.test" (loadDomains envRejected startWorld).2).2.catcher.registeredDomains
      = (loadDomains envRejected startWorld).2.catcher.registeredDomains ∧
    Event.checkCalled "a.test"
      ∈ (checkAndRegisterDomains envRejected (cycles envRejected 1 startWorld)).2.trace.drop
          (cycles envRejected 1 startWorld).trace.length :=
  failure_does_not_claim envRejected "a.test" (loadDomains envRejected startWorld).2
    (registerDomainCatch envRejected badRequest) (cycles envRejected 1 startWorld)
    (List.getElem?_mem (n := 15) rfl) rfl (by decide) rfl (by decide)

/-- C6, witness: every request and every file operation fails; `b.test`, second in
the list after `a.test`, is still probed and gets its audit event. -/
theorem cycle_isolation_witness :
    (checkAndRegisterDomains envHostile startWorld).1 = .ok () ∧
    (∃ pre post a w1 w2,
      (loadDomains envHostile startWorld).2.catcher.domains = pre ++ "b.test" :: post ∧
      "b.test" ∉ pre ∧
      (forEachDomain envHostile pre (loadDomains envHostile startWorld).2).1 = .ok () ∧
      startWorld.trace <+: (forEachDomain envHostile pre (loadDomains envHostile startWorld).2).2.trace ∧
      checkDomainAvailability envHostile "b.test"
          (forEachDomain envHostile pre (loadDomains envHostile startWorld).2).2
        = (.ok a, w1) ∧
      logEvent envHostile "b.test" (if a.status = "free" then "FREE" else "UNAVAILABLE")
        (if a.status = "free" then msgFree else msgUnavailable) w1 = (.ok (), w2) ∧
      w2.trace <+: (checkAndRegisterDomains envHostile startWorld).2.trace) ∧
    Event.checkCalled "b.test"
      ∈ (checkAndRegisterDomains envHostile startWorld).2.trace.drop startWorld.trace.length ∧
    ∃ s m, Event.logEvent "b.test" s m
      ∈ (checkAndRegisterDomains envHostile startWorld).2.trace.drop startWorld.trace.length :=
  cycle_isolation envHostile startWorld "b.test" rfl (by decide) (by decide)

/-- C7, counterexample. The POST for `a.test` (entry 6 of the trace) fails with an error
whose response has the body `false`; `registerDomain` returns the raw error text as
message, not that body. -/
theorem registration_detail_counterexample :
    (registerDomain envRejected "a.test" startWorld).2.trace[6]?
      = some (.http (.post "https://api.transip.nl/v6/domains" "Bearer tok"
          (registrationPayload "a.test")) (.error badRequest)) ∧
    badRequest.response = some { status := 400, data := .bool false } ∧
    (registerDomain envRejected "a.test" startWorld).1
      = .ok { success := false, message := .str "Request failed with status code 400",
              data := none } :=
  ⟨rfl, rfl, rfl⟩

/-- C8, the failing input. A new client holds no token; the environment configures
`expired-token` and the `/api-test` probe fails. `authenticate` throws the error, and
the client is left holding `expired-token`. -/
theorem authenticate_failure_replaces_token :
    startWorld.client.token = none ∧
    (authenticate envHostile startWorld).1 = .error networkError ∧
    (authenticate envHostile startWorld).2.client.token = some "expired-token" :=
  ⟨rfl, rfl, rfl⟩

end TransipDomainCatcher
